import Mathlib

/-!
Verification development for the sleep-age-simulator engine
(`src/app.js`, classes `ScientificConstants` and `HypnogramGenerator`).

The engine is embedded shallowly over `ℚ`:
* JS numbers become exact rationals (the source uses IEEE doubles; all
  claimed invariants are stated "up to floating-point rounding", which the
  rational embedding makes exact);
* `Math.random()` becomes an explicit draw function `rand : ℕ → ℚ`, the
  `k`-th call reading `rand k` (WASO-chunk draws first, micro-arousal draws
  after, in source order);
* the single transcendental `Math.pow(0.5, caffeineTime / halfLife)` is
  abstracted as a parameter `pow05`; for `caffeineTime ≥ 0` its value lies
  in `[0, 1]`, which is the only fact the code's consequences use
  (`activeCaffeine = caffeine * pow05`);
* the `while (accumulatedSleep < tst)` loop becomes fuel-bounded iteration
  `loopRun`; the termination theorem shows fuel `11` already makes the
  guard false, so extra fuel never changes the result and the embedding
  agrees with the unbounded source loop.
-/

namespace SleepSim

/-- Sleep stages, mirroring the `STAGES` enum of `app.js`. -/
inductive Stage where
  | WAKE
  | REM
  | N1
  | N2
  | N3
deriving DecidableEq, Repr

/-- A hypnogram block `{stage, duration, start}` (minutes). -/
structure Block where
  stage : Stage
  duration : ℚ
  start : ℚ
deriving DecidableEq, Repr

/-- A micro-arousal overlay event `{time, duration}`. -/
structure WakeEvent where
  time : ℚ
  duration : ℚ
deriving DecidableEq, Repr

/-- The `for`-loop of the JS `interpolate` helper: scan adjacent keyframe
pairs and linearly interpolate inside the first bracketing segment. -/
def interpSeg (val : ℚ) : List (ℚ × ℚ) → Option ℚ
  | (a1, v1) :: (a2, v2) :: rest =>
      if a1 ≤ val ∧ val ≤ a2 then
        some (v1 + (val - a1) / (a2 - a1) * (v2 - v1))
      else
        interpSeg val ((a2, v2) :: rest)
  | _ => none

/-- The `interpolate` helper of `ScientificConstants.getAgeProfile`:
flat extrapolation outside the keyframe range, linear interpolation
inside, with the last keyframe value as the (unreachable) fallback. -/
def interpolate (val : ℚ) (ks : List (ℚ × ℚ)) : ℚ :=
  match ks with
  | [] => 0
  | k0 :: _ =>
    let kl := ks.getLastD k0
    if val ≤ k0.1 then k0.2
    else if kl.1 ≤ val then kl.2
    else
      match interpSeg val ks with
      | some v => v
      | none => kl.2

def tstKeyframes : List (ℚ × ℚ) :=
  [(0, 960), (5, 690), (12, 570), (18, 480), (40, 432), (60, 360), (80, 312), (90, 300)]

def n3Keyframes : List (ℚ × ℚ) :=
  [(0, 0.25), (10, 0.25), (18, 0.22), (40, 0.18), (60, 0.15), (80, 0.12), (100, 0.10)]

def remKeyframes : List (ℚ × ℚ) :=
  [(0, 0.50), (3, 0.30), (5, 0.25), (60, 0.23), (80, 0.20), (100, 0.18)]

def wasoKeyframes : List (ℚ × ℚ) :=
  [(0, 5), (30, 20), (50, 45), (70, 80), (80, 120), (90, 150)]

def n1Keyframes : List (ℚ × ℚ) :=
  [(0, 0.05), (50, 0.05), (80, 0.10), (100, 0.12)]

/-- The age profile record returned by `ScientificConstants.getAgeProfile`. -/
structure AgeProfile where
  tst : ℚ
  n3P : ℚ
  remP : ℚ
  n1P : ℚ
  n2P : ℚ
  wasoMins : ℚ
deriving DecidableEq, Repr

/-- `ScientificConstants.getAgeProfile` (keyframe-interpolation variant of
`app.js`): interpolate the five tables, compute N2 as the remainder, and
renormalize to `0.95 / 0.05` if the remainder would be negative. -/
def getAgeProfile (age : ℚ) : AgeProfile :=
  let tst := interpolate age tstKeyframes
  let n3P := interpolate age n3Keyframes
  let remP := interpolate age remKeyframes
  let wasoMins := interpolate age wasoKeyframes
  let n1P := interpolate age n1Keyframes
  let n2P := 1 - (n3P + remP + n1P)
  if n2P < 0 then
    let sum := n3P + remP + n1P
    { tst := tst, n3P := n3P / sum * 0.95, remP := remP / sum * 0.95,
      n1P := n1P / sum * 0.95, n2P := 0.05, wasoMins := wasoMins }
  else
    { tst := tst, n3P := n3P, remP := remP, n1P := n1P, n2P := n2P, wasoMins := wasoMins }

inductive Gender where
  | male
  | female
  | other
deriving DecidableEq, Repr

inductive Chronotype where
  | lark
  | normal
  | owl
deriving DecidableEq, Repr

/-- The engine configuration (the fields of `generate`'s `config` argument
that the engine reads; `caffeineTime` and `caffeineMetabolism` only enter
through the abstracted decay factor `pow05`). -/
structure Config where
  age : ℚ
  gender : Gender
  alcohol : ℚ
  caffeine : ℚ
  sdbSeverity : ℚ
  nocturia : ℚ
  chronotype : Chronotype
  socialJetLag : Bool
  blueLight : Bool
  isMenopausal : Bool
deriving DecidableEq, Repr

/-- `activeCaffeine = caffeine * Math.pow(0.5, caffeineTime / halfLife)`,
with the power abstracted as `pow05`. -/
def activeCaffeine (caffeine pow05 : ℚ) : ℚ := caffeine * pow05

/-- The running modifier state of the pipeline (N2 is recomputed at the
end, so it is not carried). -/
structure Mods where
  tst : ℚ
  n3P : ℚ
  remP : ℚ
  n1P : ℚ
  wasoMins : ℚ
deriving DecidableEq, Repr

def baseMods (age : ℚ) : Mods :=
  let p := getAgeProfile age
  { tst := p.tst, n3P := p.n3P, remP := p.remP, n1P := p.n1P, wasoMins := p.wasoMins }

/-- Modifier 0: blue light. -/
def blueLightStage (blueLight : Bool) (m : Mods) : Mods :=
  if blueLight then
    { m with tst := m.tst - 30, n3P := m.n3P * 0.85, remP := m.remP * 0.9, n1P := m.n1P + 0.03 }
  else m

/-- Modifier 1: caffeine (applies when the active dose exceeds 0.1). -/
def caffeineStage (ac : ℚ) (m : Mods) : Mods :=
  if 0.1 < ac then
    { m with n3P := m.n3P * max 0.5 (1 - ac * 0.15), n1P := m.n1P + ac * 0.03,
             tst := m.tst - ac * 15, wasoMins := m.wasoMins + ac * 15 }
  else m

/-- Modifier 2: alcohol. -/
def alcoholStage (alcohol : ℚ) (m : Mods) : Mods :=
  if 0 < alcohol then
    { m with n3P := m.n3P * max 0.6 (1 - alcohol * 0.1),
             remP := m.remP * max 0.4 (1 - alcohol * 0.15),
             wasoMins := m.wasoMins + alcohol * 25 }
  else m

/-- Modifier 3: social jet lag. -/
def socialJetLagStage (sjl : Bool) (m : Mods) : Mods :=
  if sjl then
    { m with tst := m.tst - 60, n3P := m.n3P * 0.85, remP := m.remP * 0.8,
             wasoMins := m.wasoMins + 30 }
  else m

/-- Gender difference: males over 30 get a fragmentation penalty. -/
def genderStage (gender : Gender) (age : ℚ) (m : Mods) : Mods :=
  if gender = Gender.male ∧ 30 < age then { m with wasoMins := m.wasoMins * 1.1 } else m

/-- Menopause modifier. -/
def menopauseStage (isMen : Bool) (m : Mods) : Mods :=
  if isMen then
    { m with wasoMins := m.wasoMins + 45, n3P := m.n3P * 0.80, remP := m.remP * 0.9,
             n1P := m.n1P + 0.05 }
  else m

/-- SDB (sleep apnea) modifier, `factor = sdbSeverity / 10`. -/
def sdbStage (sdb : ℚ) (m : Mods) : Mods :=
  if 0 < sdb then
    let factor := sdb / 10
    { m with n3P := m.n3P * (1 - factor * 0.75), remP := m.remP * (1 - factor * 0.3),
             wasoMins := m.wasoMins + factor * 80, n1P := m.n1P + factor * 0.15,
             tst := m.tst - factor * 60 }
  else m

/-- Nocturia modifier. -/
def nocturiaStage (nocturia : ℚ) (m : Mods) : Mods :=
  if 0 < nocturia then { m with wasoMins := m.wasoMins + nocturia * 10 } else m

/-- Final safety rescale: if N3+REM+N1 exceeds 0.95, scale all three down. -/
def rescaleStage (m : Mods) : Mods :=
  let totalP := m.n3P + m.remP + m.n1P
  if 0.95 < totalP then
    let scale := 0.95 / totalP
    { m with n3P := m.n3P * scale, remP := m.remP * scale, n1P := m.n1P * scale }
  else m

/-- The pipeline through the menopause stage (everything before the SDB
modifier, in source order). -/
def preSdbMods (cfg : Config) (pow05 : ℚ) : Mods :=
  menopauseStage cfg.isMenopausal
    (genderStage cfg.gender cfg.age
      (socialJetLagStage cfg.socialJetLag
        (alcoholStage cfg.alcohol
          (caffeineStage (activeCaffeine cfg.caffeine pow05)
            (blueLightStage cfg.blueLight (baseMods cfg.age))))))

/-- The full modifier pipeline (source order: blue light, caffeine,
alcohol, social jet lag, gender, menopause, SDB, nocturia, rescale). -/
def finalMods (cfg : Config) (pow05 : ℚ) : Mods :=
  rescaleStage (nocturiaStage cfg.nocturia (sdbStage cfg.sdbSeverity (preSdbMods cfg pow05)))

/-- The recomputed global N2 fraction (`n2P = 1.0 - (n3P + remP + n1P)`). -/
def finalN2P (cfg : Config) (pow05 : ℚ) : ℚ :=
  let m := finalMods cfg pow05
  1 - (m.n3P + m.remP + m.n1P)

/-- Sleep-onset latency: base 10, age term, caffeine term, blue light,
alcohol discount floored at 5, menopause penalty. -/
def latencyVal (cfg : Config) (pow05 : ℚ) : ℚ :=
  let ac := activeCaffeine cfg.caffeine pow05
  let blL : ℚ := if cfg.blueLight then 45 else 0
  let l0 := 10 + max 0 ((cfg.age - 20) * 0.25) + ac * 20 + blL
  let l1 := if 0 < cfg.alcohol then max 5 (l0 - cfg.alcohol * 5) else l0
  if cfg.isMenopausal then l1 + 15 else l1

/-- The initial N1 block duration: `5 + (age > 50 ? 5 : 0) + activeCaffeine * 5`. -/
def initN1Dur (cfg : Config) (pow05 : ℚ) : ℚ :=
  5 + (if 50 < cfg.age then (5 : ℚ) else 0) + activeCaffeine cfg.caffeine pow05 * 5

/-- `numWakeChunks = max(1, floor(wasoMins / 15))`. -/
def numWakeChunks (waso : ℚ) : ℕ := (max 1 ⌊waso / 15⌋).toNat

/-- `wakeChunkDuration = wasoMins / numWakeChunks`. -/
def wakeChunkDuration (waso : ℚ) : ℚ := waso / (numWakeChunks waso : ℚ)

/-- `estCycles = ceil(tst / cycleLength)` with `cycleLength = 90`. -/
def estCycles (tst : ℚ) : ℤ := ⌈tst / 90⌉

/-- The scheduled WASO-chunk cycle indices: one uniform draw per chunk,
`floor(random * estCycles)`, then sorted ascending (JS `sort((a,b)=>a-b)`;
for a linear order the sorted permutation is unique, so insertion sort
gives the same list). -/
def wakeIdxList (waso tst : ℚ) (rand : ℕ → ℚ) : List ℤ :=
  List.insertionSort (· ≤ ·)
    ((List.range (numWakeChunks waso)).map (fun k => ⌊rand k * (estCycles tst : ℚ)⌋))

/-- The loop-constant context extracted from the pipeline. -/
structure Ctx where
  tst : ℚ
  n3P : ℚ
  remP : ℚ
  alcohol : ℚ
  age : ℚ
  chunkDur : ℚ
deriving DecidableEq, Repr

def mkCtx (cfg : Config) (pow05 : ℚ) : Ctx :=
  let m := finalMods cfg pow05
  { tst := m.tst, n3P := m.n3P, remP := m.remP, alcohol := cfg.alcohol, age := cfg.age,
    chunkDur := wakeChunkDuration m.wasoMins }

/-- The mutable state of the continuous cycle loop. -/
structure LoopState where
  blocks : List Block
  currentTime : ℚ
  accumulatedSleep : ℚ
  cycleIndex : ℕ
  pending : List ℤ
deriving DecidableEq, Repr

/-- Per-cycle raw N3 weight: `n3P * (1 - cycleIndex*0.15) * 2.0`, then the
alcohol bias (boost in cycles 0-1, halved afterwards). -/
def localN3raw (ctx : Ctx) (k : ℕ) : ℚ :=
  let base := ctx.n3P * (1 - (k : ℚ) * 0.15) * 2.0
  if 0 < ctx.alcohol then
    if k < 2 then base * (1 + ctx.alcohol * 0.1) else base * 0.5
  else base

/-- Per-cycle raw REM weight: `remP * (0.5 + (cycleIndex*0.20)*1.5)`, then
the alcohol bias (suppressed in cycles 0-1, boosted afterwards). -/
def localREMraw (ctx : Ctx) (k : ℕ) : ℚ :=
  let base := ctx.remP * (0.5 + ((k : ℚ) * 0.20) * 1.5)
  if 0 < ctx.alcohol then
    if k < 2 then base * max 0.1 (1 - ctx.alcohol * 0.3) else base * (1 + ctx.alcohol * 0.2)
  else base

/-- Per-cycle normalization: N2 is the remainder; if negative, compress N3
and REM proportionally to 0.9 and set N2 to 0.1. Returns (N3, REM, N2). -/
def localsNormed (n3 rem : ℚ) : ℚ × ℚ × ℚ :=
  let n2 := 1 - (n3 + rem)
  if n2 < 0 then
    let total := n3 + rem
    (n3 / total * 0.9, rem / total * 0.9, 0.1)
  else (n3, rem, n2)

def localN3of (ctx : Ctx) (k : ℕ) : ℚ := (localsNormed (localN3raw ctx k) (localREMraw ctx k)).1

def localREMof (ctx : Ctx) (k : ℕ) : ℚ := (localsNormed (localN3raw ctx k) (localREMraw ctx k)).2.1

def localN2of (ctx : Ctx) (k : ℕ) : ℚ := (localsNormed (localN3raw ctx k) (localREMraw ctx k)).2.2

/-- `currentCycleSleep = min(cycleLength, tst - accumulatedSleep)`. -/
def ccsVal (ctx : Ctx) (accum : ℚ) : ℚ := min 90 (ctx.tst - accum)

/-- Post-REM transition N1 duration: `2 + (age > 50 ? 2 : 0)`. -/
def transN1val (ctx : Ctx) : ℚ := 2 + (if 50 < ctx.age then (2 : ℚ) else 0)

/-- The JS inner `while` that pops the leading pending chunk indices equal
to the current cycle index; returns (number popped, rest). -/
def popEq (k : ℤ) : List ℤ → ℕ × List ℤ
  | [] => (0, [])
  | e :: rest =>
      if e = k then ((popEq k rest).1 + 1, (popEq k rest).2)
      else (0, e :: rest)

/-- Total sleep added to `accumulatedSleep` by the cycle at index `k`
entered with `accumulatedSleep = accum`: the two N2 bridges, N3 when its
share exceeds 0.01, REM, and the transition N1 of a full (≥ 81-minute)
cycle. -/
def sleepGain (ctx : Ctx) (k : ℕ) (accum : ℚ) : ℚ :=
  let ccs := ccsVal ctx accum
  ccs * (localN2of ctx k * 0.4)
    + (if 0.01 < localN3of ctx k then ccs * localN3of ctx k else 0)
    + ccs * (localN2of ctx k * 0.6)
    + ccs * localREMof ctx k
    + (if 81 ≤ ccs then transN1val ctx else 0)

/-- The run of WASO WAKE blocks injected back-to-back from time `t`. -/
def wakeChunks (c : ℚ) : ℚ → ℕ → List Block
  | _, 0 => []
  | t, n + 1 => { stage := Stage.WAKE, duration := c, start := t } :: wakeChunks c (t + c) n

/-- The blocks emitted by one cycle iteration, in source push order:
N2 bridge (40%), N3 (if its share exceeds 0.01), N2 bridge (60%), REM,
transition N1 (full cycles only), then the matching WASO WAKE chunks. -/
def cycleBlocks (ctx : Ctx) (s : LoopState) : List Block :=
  let k := s.cycleIndex
  let ccs := ccsVal ctx s.accumulatedSleep
  let dN2Pre := ccs * (localN2of ctx k * 0.4)
  let dN3 := ccs * localN3of ctx k
  let dN2Post := ccs * (localN2of ctx k * 0.6)
  let dREM := ccs * localREMof ctx k
  let t0 := s.currentTime
  let t1 := if 0.01 < localN3of ctx k then t0 + dN2Pre + dN3 else t0 + dN2Pre
  let t2 := t1 + dN2Post
  let t3 := t2 + dREM
  let t4 := if 81 ≤ ccs then t3 + transN1val ctx else t3
  [{ stage := Stage.N2, duration := dN2Pre, start := t0 }]
    ++ (if 0.01 < localN3of ctx k then
          [{ stage := Stage.N3, duration := dN3, start := t0 + dN2Pre }] else [])
    ++ [{ stage := Stage.N2, duration := dN2Post, start := t1 }]
    ++ [{ stage := Stage.REM, duration := dREM, start := t2 }]
    ++ (if 81 ≤ ccs then [{ stage := Stage.N1, duration := transN1val ctx, start := t3 }] else [])
    ++ wakeChunks ctx.chunkDur t4 (popEq (k : ℤ) s.pending).1

/-- One iteration of the continuous cycle loop. -/
def cycleStep (ctx : Ctx) (s : LoopState) : LoopState :=
  { blocks := s.blocks ++ cycleBlocks ctx s,
    currentTime := s.currentTime + sleepGain ctx s.cycleIndex s.accumulatedSleep
      + ((popEq (s.cycleIndex : ℤ) s.pending).1 : ℚ) * ctx.chunkDur,
    accumulatedSleep := s.accumulatedSleep + sleepGain ctx s.cycleIndex s.accumulatedSleep,
    cycleIndex := s.cycleIndex + 1,
    pending := (popEq (s.cycleIndex : ℤ) s.pending).2 }

/-- Fuel-bounded iteration of `while (accumulatedSleep < tst)`. -/
def loopRun (ctx : Ctx) : ℕ → LoopState → LoopState
  | 0, s => s
  | n + 1, s => if s.accumulatedSleep < ctx.tst then loopRun ctx n (cycleStep ctx s) else s

/-- Fuel which (provably) exhausts the source's `while` loop. -/
def FUEL : ℕ := 11

/-- The loop state before the first cycle: the latency WAKE block and the
initial N1 block are already emitted, `accumulatedSleep` starts at the
initial N1 duration, and the WASO chunk schedule is drawn and sorted. -/
def initState (cfg : Config) (pow05 : ℚ) (rand : ℕ → ℚ) : LoopState :=
  let lat := latencyVal cfg pow05
  let iN1 := initN1Dur cfg pow05
  let m := finalMods cfg pow05
  { blocks := [{ stage := Stage.WAKE, duration := lat, start := 0 },
               { stage := Stage.N1, duration := iN1, start := lat }],
    currentTime := lat + iN1,
    accumulatedSleep := iN1,
    cycleIndex := 0,
    pending := wakeIdxList m.wasoMins m.tst rand }

/-- Elderly circadian phase shift (age > 65, linear to -120 by 85). -/
def agePhaseShift (age : ℚ) : ℚ :=
  if 65 < age then -120 * min 1 ((age - 65) / 20) else 0

/-- Teenage phase delay: ramps 0 → 90 over ages 13-17, back to 0 by 21. -/
def teenShiftVal (age : ℚ) : ℚ :=
  if 13 ≤ age ∧ age ≤ 21 then
    if age ≤ 17 then ((age - 13) / 4) * 90 else 90 - ((age - 17) / 4) * 90
  else 0

def chronoOffset (c : Chronotype) : ℚ :=
  if c = Chronotype.lark then -120 else if c = Chronotype.owl then 180 else 0

def bedtimeShiftVal (sjl : Bool) : ℚ := if sjl then 180 else 0

/-- `startTimeOffset` of the post-processing step. -/
def startTimeOffsetVal (cfg : Config) : ℚ :=
  chronoOffset cfg.chronotype + bedtimeShiftVal cfg.socialJetLag
    + agePhaseShift cfg.age + teenShiftVal cfg.age

/-- `numMicroArousals = 5 + (age > 50 ? 5 : 0) + sdbSeverity * 15`
(the ceiling models the JS `for (i = 0; i < num; i++)` iteration count for
a possibly fractional bound; it is exact for integer severities). -/
def numMicroArousals (age sdb : ℚ) : ℕ :=
  (⌈5 + (if 50 < age then (5 : ℚ) else 0) + sdb * 15⌉).toNat

/-- The micro-arousal overlay: uniform times in `[latency, currentTime)`,
each 1 minute, consuming draws after the WASO-chunk draws. -/
def wakeEventsList (cfg : Config) (rand : ℕ → ℚ) (lat tib : ℚ) (skip : ℕ) : List WakeEvent :=
  (List.range (numMicroArousals cfg.age cfg.sdbSeverity)).map
    (fun i => { time := lat + rand (skip + i) * (tib - lat), duration := 1 })

structure Params where
  chronotype : Chronotype
  startTimeOffset : ℚ
  tst : ℚ
  tib : ℚ
deriving DecidableEq, Repr

structure Stats where
  n3P : ℚ
  remP : ℚ
  n1P : ℚ
  n2P : ℚ
  wasoMins : ℚ
  tst : ℚ
  tib : ℚ
  sleepEfficiency : ℚ
  latency : ℚ
deriving DecidableEq, Repr

structure SimResult where
  blocks : List Block
  wakeEvents : List WakeEvent
  params : Params
  stats : Stats
deriving DecidableEq, Repr

/-- Sum of the durations of all blocks. -/
def sumDur (bs : List Block) : ℚ := (bs.map Block.duration).sum

/-- `blocks.reduce((sum, b) => b.stage !== WAKE ? sum + b.duration : sum, 0)`:
the recomputed actual total sleep. -/
def sumSleep (bs : List Block) : ℚ :=
  ((bs.filter (fun b => b.stage ≠ Stage.WAKE)).map Block.duration).sum

/-- Sum of the durations of the WAKE blocks. -/
def sumWake (bs : List Block) : ℚ :=
  ((bs.filter (fun b => b.stage = Stage.WAKE)).map Block.duration).sum

/-- `HypnogramGenerator.generate`: pipeline, continuous cycle loop,
micro-arousal overlay, post-processing and statistics. -/
def generate (cfg : Config) (pow05 : ℚ) (rand : ℕ → ℚ) : SimResult :=
  let m := finalMods cfg pow05
  let ctx := mkCtx cfg pow05
  let sF := loopRun ctx FUEL (initState cfg pow05 rand)
  let lat := latencyVal cfg pow05
  let offset := startTimeOffsetVal cfg
  let actualTST := sumSleep sF.blocks
  let tib := sF.currentTime
  { blocks := sF.blocks.map (fun b => { b with start := b.start + 240 + offset }),
    wakeEvents := (wakeEventsList cfg rand lat tib (numWakeChunks m.wasoMins)).map
      (fun w => { w with time := w.time + 240 + offset }),
    params := { chronotype := cfg.chronotype, startTimeOffset := offset,
                tst := actualTST, tib := tib },
    stats := { n3P := m.n3P, remP := m.remP, n1P := m.n1P, n2P := finalN2P cfg pow05,
               wasoMins := m.wasoMins, tst := actualTST, tib := tib,
               sleepEfficiency := actualTST / tib * 100, latency := lat } }

/-- Documented input ranges of the configuration fields. -/
def ValidConfig (cfg : Config) : Prop :=
  0 ≤ cfg.age ∧ 0 ≤ cfg.alcohol ∧ cfg.alcohol ≤ 10 ∧ 0 ≤ cfg.caffeine ∧ cfg.caffeine ≤ 10 ∧
    0 ≤ cfg.sdbSeverity ∧ cfg.sdbSeverity ≤ 10 ∧ 0 ≤ cfg.nocturia ∧ cfg.nocturia ≤ 10

instance (cfg : Config) : Decidable (ValidConfig cfg) := by
  unfold ValidConfig; infer_instance

/-- Range of the abstracted caffeine decay factor `0.5 ^ (t / halfLife)`
for `t ≥ 0`. -/
def ValidPow (p : ℚ) : Prop := 0 ≤ p ∧ p ≤ 1

instance (p : ℚ) : Decidable (ValidPow p) := by
  unfold ValidPow; infer_instance

/-! ### Interpolation bounds -/

theorem interpSeg_mem {lo hi val : ℚ} (ks : List (ℚ × ℚ))
    (hb : ∀ p ∈ ks, lo ≤ p.2 ∧ p.2 ≤ hi)
    (hc : List.Chain' (fun p q : ℚ × ℚ => p.1 < q.1) ks) :
    ∀ v, interpSeg val ks = some v → lo ≤ v ∧ v ≤ hi := by
  induction ks with
  | nil => intro v hv; simp [interpSeg] at hv
  | cons p ks ih =>
    intro v hv
    cases ks with
    | nil => simp [interpSeg] at hv
    | cons q rest =>
      obtain ⟨a1, v1⟩ := p
      obtain ⟨a2, v2⟩ := q
      rw [interpSeg] at hv
      have hb1 := hb (a1, v1) (by simp)
      have hb2 := hb (a2, v2) (by simp)
      have ha : a1 < a2 := (List.chain'_cons.mp hc).1
      split at hv
      · rename_i h
        obtain ⟨h1, h2⟩ := h
        injection hv with hv
        subst hv
        have hd : (0 : ℚ) < a2 - a1 := by linarith
        have ht0 : 0 ≤ (val - a1) / (a2 - a1) := div_nonneg (by linarith) (le_of_lt hd)
        have ht1 : (val - a1) / (a2 - a1) ≤ 1 := by
          rw [div_le_one hd]; linarith
        constructor
        · nlinarith [mul_nonneg ht0 (sub_nonneg.mpr hb2.1),
            mul_nonneg (sub_nonneg.mpr ht1) (sub_nonneg.mpr hb1.1)]
        · nlinarith [mul_nonneg ht0 (sub_nonneg.mpr hb2.2),
            mul_nonneg (sub_nonneg.mpr ht1) (sub_nonneg.mpr hb1.2)]
      · exact ih (fun r hr => hb r (List.mem_cons_of_mem _ hr)) (List.chain'_cons.mp hc).2 v hv

theorem interpolate_mem {lo hi : ℚ} (val : ℚ) (ks : List (ℚ × ℚ)) (hne : ks ≠ [])
    (hb : ∀ p ∈ ks, lo ≤ p.2 ∧ p.2 ≤ hi)
    (hc : List.Chain' (fun p q : ℚ × ℚ => p.1 < q.1) ks) :
    lo ≤ interpolate val ks ∧ interpolate val ks ≤ hi := by
  match ks, hne with
  | k0 :: rest, _ =>
    have hlast : (k0 :: rest).getLastD k0 ∈ k0 :: rest := by
      rw [List.getLastD_cons]
      exact List.getLastD_mem_cons rest k0
    have hbl := hb _ hlast
    have hb0 := hb k0 (by simp)
    rw [interpolate]
    split
    · exact hb0
    · split
      · exact hbl
      · split
        · rename_i v hv
          exact interpSeg_mem (k0 :: rest) hb hc v hv
        · exact hbl

theorem tst_base_mem (age : ℚ) :
    300 ≤ interpolate age tstKeyframes ∧ interpolate age tstKeyframes ≤ 960 :=
  interpolate_mem age tstKeyframes (by simp [tstKeyframes])
    (by intro p hp; fin_cases hp <;> constructor <;> norm_num)
    (by norm_num [tstKeyframes, List.chain'_cons, List.chain'_singleton])

theorem n3_base_mem (age : ℚ) :
    1/10 ≤ interpolate age n3Keyframes ∧ interpolate age n3Keyframes ≤ 1/4 :=
  interpolate_mem age n3Keyframes (by simp [n3Keyframes])
    (by intro p hp; fin_cases hp <;> constructor <;> norm_num)
    (by norm_num [n3Keyframes, List.chain'_cons, List.chain'_singleton])

theorem rem_base_mem (age : ℚ) :
    9/50 ≤ interpolate age remKeyframes ∧ interpolate age remKeyframes ≤ 1/2 :=
  interpolate_mem age remKeyframes (by simp [remKeyframes])
    (by intro p hp; fin_cases hp <;> constructor <;> norm_num)
    (by norm_num [remKeyframes, List.chain'_cons, List.chain'_singleton])

theorem waso_base_mem (age : ℚ) :
    5 ≤ interpolate age wasoKeyframes ∧ interpolate age wasoKeyframes ≤ 150 :=
  interpolate_mem age wasoKeyframes (by simp [wasoKeyframes])
    (by intro p hp; fin_cases hp <;> constructor <;> norm_num)
    (by norm_num [wasoKeyframes, List.chain'_cons, List.chain'_singleton])

theorem n1_base_mem (age : ℚ) :
    1/20 ≤ interpolate age n1Keyframes ∧ interpolate age n1Keyframes ≤ 3/25 :=
  interpolate_mem age n1Keyframes (by simp [n1Keyframes])
    (by intro p hp; fin_cases hp <;> constructor <;> norm_num)
    (by norm_num [n1Keyframes, List.chain'_cons, List.chain'_singleton])

/-- The base profile's three interpolated fractions sum below 1, so the
safety-renormalization branch of `getAgeProfile` is never taken. -/
theorem getAgeProfile_eq (age : ℚ) :
    getAgeProfile age =
      { tst := interpolate age tstKeyframes, n3P := interpolate age n3Keyframes,
        remP := interpolate age remKeyframes, n1P := interpolate age n1Keyframes,
        n2P := 1 - (interpolate age n3Keyframes + interpolate age remKeyframes
          + interpolate age n1Keyframes),
        wasoMins := interpolate age wasoKeyframes } := by
  have h3 := n3_base_mem age
  have hr := rem_base_mem age
  have h1 := n1_base_mem age
  rw [getAgeProfile]
  simp only []
  rw [if_neg]
  push_neg
  linarith [h3.2, hr.2, h1.2]

/-! ### Modifier-pipeline projections and bounds -/

theorem blueLightStage_tst (b : Bool) (m : Mods) :
    (blueLightStage b m).tst = if b then m.tst - 30 else m.tst := by
  rw [blueLightStage]; split_ifs <;> rfl

theorem caffeineStage_tst (ac : ℚ) (m : Mods) :
    (caffeineStage ac m).tst = if 0.1 < ac then m.tst - ac * 15 else m.tst := by
  rw [caffeineStage]; split_ifs <;> rfl

theorem alcoholStage_tst (a : ℚ) (m : Mods) : (alcoholStage a m).tst = m.tst := by
  rw [alcoholStage]; split_ifs <;> rfl

theorem socialJetLagStage_tst (b : Bool) (m : Mods) :
    (socialJetLagStage b m).tst = if b then m.tst - 60 else m.tst := by
  rw [socialJetLagStage]; split_ifs <;> rfl

theorem genderStage_tst (g : Gender) (age : ℚ) (m : Mods) : (genderStage g age m).tst = m.tst := by
  rw [genderStage]; split_ifs <;> rfl

theorem menopauseStage_tst (b : Bool) (m : Mods) : (menopauseStage b m).tst = m.tst := by
  rw [menopauseStage]; split_ifs <;> rfl

theorem sdbStage_tst (s : ℚ) (m : Mods) :
    (sdbStage s m).tst = if 0 < s then m.tst - s / 10 * 60 else m.tst := by
  rw [sdbStage]; split_ifs <;> rfl

theorem nocturiaStage_tst (n : ℚ) (m : Mods) : (nocturiaStage n m).tst = m.tst := by
  rw [nocturiaStage]; split_ifs <;> rfl

theorem rescaleStage_tst (m : Mods) : (rescaleStage m).tst = m.tst := by
  rw [rescaleStage]; split_ifs <;> rfl

theorem nocturiaStage_n3P (n : ℚ) (m : Mods) : (nocturiaStage n m).n3P = m.n3P := by
  rw [nocturiaStage]; split_ifs <;> rfl

theorem nocturiaStage_remP (n : ℚ) (m : Mods) : (nocturiaStage n m).remP = m.remP := by
  rw [nocturiaStage]; split_ifs <;> rfl

theorem nocturiaStage_n1P (n : ℚ) (m : Mods) : (nocturiaStage n m).n1P = m.n1P := by
  rw [nocturiaStage]; split_ifs <;> rfl

theorem nocturiaStage_waso (n : ℚ) (m : Mods) :
    (nocturiaStage n m).wasoMins = if 0 < n then m.wasoMins + n * 10 else m.wasoMins := by
  rw [nocturiaStage]; split_ifs <;> rfl

theorem rescaleStage_waso (m : Mods) : (rescaleStage m).wasoMins = m.wasoMins := by
  rw [rescaleStage]; split_ifs <;> rfl

theorem rescaleStage_n3P (m : Mods) :
    (rescaleStage m).n3P =
      if 0.95 < m.n3P + m.remP + m.n1P then m.n3P * (0.95 / (m.n3P + m.remP + m.n1P))
      else m.n3P := by
  rw [rescaleStage]; split_ifs <;> rfl

theorem sdbStage_n3P (s : ℚ) (m : Mods) :
    (sdbStage s m).n3P = if 0 < s then m.n3P * (1 - s / 10 * 0.75) else m.n3P := by
  rw [sdbStage]; split_ifs <;> rfl

theorem sdbStage_remP (s : ℚ) (m : Mods) :
    (sdbStage s m).remP = if 0 < s then m.remP * (1 - s / 10 * 0.3) else m.remP := by
  rw [sdbStage]; split_ifs <;> rfl

theorem sdbStage_n1P (s : ℚ) (m : Mods) :
    (sdbStage s m).n1P = if 0 < s then m.n1P + s / 10 * 0.15 else m.n1P := by
  rw [sdbStage]; split_ifs <;> rfl

theorem sdbStage_waso (s : ℚ) (m : Mods) :
    (sdbStage s m).wasoMins = if 0 < s then m.wasoMins + s / 10 * 80 else m.wasoMins := by
  rw [sdbStage]; split_ifs <;> rfl

/-- The running bounds maintained along the modifier pipeline. -/
def ModsOK (m : Mods) : Prop :=
  0 < m.n3P ∧ m.n3P ≤ 1/4 ∧ 0 < m.remP ∧ m.remP ≤ 1/2 ∧ 0 ≤ m.n1P ∧ 0 ≤ m.wasoMins

theorem baseMods_ok (age : ℚ) : ModsOK (baseMods age) ∧
    300 ≤ (baseMods age).tst ∧ (baseMods age).tst ≤ 960 := by
  have h3 := n3_base_mem age
  have hr := rem_base_mem age
  have h1 := n1_base_mem age
  have hw := waso_base_mem age
  have ht := tst_base_mem age
  rw [baseMods, getAgeProfile_eq]
  exact ⟨⟨by linarith [h3.1], h3.2, by linarith [hr.1], hr.2, by linarith [h1.1],
    by linarith [hw.1]⟩, ht.1, ht.2⟩

theorem blueLightStage_ok (b : Bool) (m : Mods) (h : ModsOK m) : ModsOK (blueLightStage b m) := by
  obtain ⟨h1, h2, h3, h4, h5, h6⟩ := h
  rw [blueLightStage]
  split_ifs
  · exact ⟨by nlinarith, by nlinarith, by nlinarith, by nlinarith, by linarith, h6⟩
  · exact ⟨h1, h2, h3, h4, h5, h6⟩

theorem caffeineStage_ok (ac : ℚ) (m : Mods) (hac : 0 ≤ ac) (h : ModsOK m) :
    ModsOK (caffeineStage ac m) := by
  obtain ⟨h1, h2, h3, h4, h5, h6⟩ := h
  rw [caffeineStage]
  split_ifs
  · have hf0 : (0 : ℚ) < max 0.5 (1 - ac * 0.15) :=
      lt_of_lt_of_le (by norm_num) (le_max_left _ _)
    have hf1 : max (0.5 : ℚ) (1 - ac * 0.15) ≤ 1 := max_le (by norm_num) (by linarith)
    refine ⟨mul_pos h1 hf0, ?_, h3, h4, by nlinarith, by nlinarith⟩
    calc m.n3P * max 0.5 (1 - ac * 0.15) ≤ m.n3P * 1 :=
          mul_le_mul_of_nonneg_left hf1 h1.le
      _ ≤ 1/4 := by linarith
  · exact ⟨h1, h2, h3, h4, h5, h6⟩

theorem alcoholStage_ok (a : ℚ) (m : Mods) (h : ModsOK m) : ModsOK (alcoholStage a m) := by
  obtain ⟨h1, h2, h3, h4, h5, h6⟩ := h
  rw [alcoholStage]
  split_ifs with ha
  · have hf0 : (0 : ℚ) < max 0.6 (1 - a * 0.1) :=
      lt_of_lt_of_le (by norm_num) (le_max_left _ _)
    have hf1 : max (0.6 : ℚ) (1 - a * 0.1) ≤ 1 := max_le (by norm_num) (by linarith)
    have hg0 : (0 : ℚ) < max 0.4 (1 - a * 0.15) :=
      lt_of_lt_of_le (by norm_num) (le_max_left _ _)
    have hg1 : max (0.4 : ℚ) (1 - a * 0.15) ≤ 1 := max_le (by norm_num) (by linarith)
    refine ⟨mul_pos h1 hf0, ?_, mul_pos h3 hg0, ?_, h5, by nlinarith⟩
    · calc m.n3P * max 0.6 (1 - a * 0.1) ≤ m.n3P * 1 :=
            mul_le_mul_of_nonneg_left hf1 h1.le
        _ ≤ 1/4 := by linarith
    · calc m.remP * max 0.4 (1 - a * 0.15) ≤ m.remP * 1 :=
            mul_le_mul_of_nonneg_left hg1 h3.le
        _ ≤ 1/2 := by linarith
  · exact ⟨h1, h2, h3, h4, h5, h6⟩

theorem socialJetLagStage_ok (b : Bool) (m : Mods) (h : ModsOK m) :
    ModsOK (socialJetLagStage b m) := by
  obtain ⟨h1, h2, h3, h4, h5, h6⟩ := h
  rw [socialJetLagStage]
  split_ifs
  · exact ⟨by nlinarith, by nlinarith, by nlinarith, by nlinarith, h5, by linarith⟩
  · exact ⟨h1, h2, h3, h4, h5, h6⟩

theorem genderStage_ok (g : Gender) (age : ℚ) (m : Mods) (h : ModsOK m) :
    ModsOK (genderStage g age m) := by
  obtain ⟨h1, h2, h3, h4, h5, h6⟩ := h
  rw [genderStage]
  split_ifs
  · exact ⟨h1, h2, h3, h4, h5, by linarith⟩
  · exact ⟨h1, h2, h3, h4, h5, h6⟩

theorem menopauseStage_ok (b : Bool) (m : Mods) (h : ModsOK m) : ModsOK (menopauseStage b m) := by
  obtain ⟨h1, h2, h3, h4, h5, h6⟩ := h
  rw [menopauseStage]
  split_ifs
  · exact ⟨by nlinarith, by nlinarith, by nlinarith, by nlinarith, by linarith, by linarith⟩
  · exact ⟨h1, h2, h3, h4, h5, h6⟩

theorem sdbStage_ok (s : ℚ) (m : Mods) (hs : s ≤ 10) (h : ModsOK m) : ModsOK (sdbStage s m) := by
  obtain ⟨h1, h2, h3, h4, h5, h6⟩ := h
  rw [sdbStage]
  split_ifs with hpos
  · have hb : (0 : ℚ) < 1 - s / 10 * 0.75 := by nlinarith
    have hc : (0 : ℚ) < 1 - s / 10 * 0.3 := by nlinarith
    refine ⟨mul_pos h1 hb, by nlinarith, mul_pos h3 hc, by nlinarith, by nlinarith, by nlinarith⟩
  · exact ⟨h1, h2, h3, h4, h5, h6⟩

theorem nocturiaStage_ok (n : ℚ) (m : Mods) (h : ModsOK m) : ModsOK (nocturiaStage n m) := by
  obtain ⟨h1, h2, h3, h4, h5, h6⟩ := h
  rw [nocturiaStage]
  split_ifs with hpos
  · refine ⟨h1, h2, h3, h4, h5, ?_⟩
    dsimp only
    nlinarith
  · exact ⟨h1, h2, h3, h4, h5, h6⟩

theorem rescaleStage_ok (m : Mods) (h : ModsOK m) : ModsOK (rescaleStage m) := by
  obtain ⟨h1, h2, h3, h4, h5, h6⟩ := h
  rw [rescaleStage]
  split_ifs with hpos
  · have htP : (0 : ℚ) < m.n3P + m.remP + m.n1P := by linarith
    have hs0 : (0 : ℚ) < 0.95 / (m.n3P + m.remP + m.n1P) := by positivity
    have hs1 : (0.95 : ℚ) / (m.n3P + m.remP + m.n1P) ≤ 1 := by
      rw [div_le_one htP]; linarith
    refine ⟨mul_pos h1 hs0, ?_, mul_pos h3 hs0, ?_, by positivity, h6⟩
    · calc m.n3P * (0.95 / (m.n3P + m.remP + m.n1P)) ≤ m.n3P * 1 :=
            mul_le_mul_of_nonneg_left hs1 h1.le
        _ ≤ 1/4 := by linarith
    · calc m.remP * (0.95 / (m.n3P + m.remP + m.n1P)) ≤ m.remP * 1 :=
            mul_le_mul_of_nonneg_left hs1 h3.le
        _ ≤ 1/2 := by linarith
  · exact ⟨h1, h2, h3, h4, h5, h6⟩

theorem activeCaffeine_mem (cfg : Config) (pow05 : ℚ) (hV : ValidConfig cfg)
    (hP : ValidPow pow05) :
    0 ≤ activeCaffeine cfg.caffeine pow05 ∧ activeCaffeine cfg.caffeine pow05 ≤ 10 := by
  obtain ⟨-, -, -, hc0, hc1, -⟩ := hV
  obtain ⟨hp0, hp1⟩ := hP
  constructor
  · exact mul_nonneg hc0 hp0
  · calc cfg.caffeine * pow05 ≤ cfg.caffeine * 1 := mul_le_mul_of_nonneg_left hp1 hc0
      _ ≤ 10 := by linarith

theorem preSdbMods_ok (cfg : Config) (pow05 : ℚ) (hV : ValidConfig cfg) (hP : ValidPow pow05) :
    ModsOK (preSdbMods cfg pow05) := by
  have hac := (activeCaffeine_mem cfg pow05 hV hP).1
  exact menopauseStage_ok _ _ (genderStage_ok _ _ _ (socialJetLagStage_ok _ _
    (alcoholStage_ok _ _ (caffeineStage_ok _ _ hac
      (blueLightStage_ok _ _ (baseMods_ok cfg.age).1)))))

theorem finalMods_ok (cfg : Config) (pow05 : ℚ) (hV : ValidConfig cfg) (hP : ValidPow pow05) :
    ModsOK (finalMods cfg pow05) :=
  rescaleStage_ok _ (nocturiaStage_ok _ _ (sdbStage_ok _ _ hV.2.2.2.2.2.2.1
    (preSdbMods_ok cfg pow05 hV hP)))

/-- The adjusted total-sleep target stays in `[0, 960]` for valid inputs. -/
theorem finalMods_tst_mem (cfg : Config) (pow05 : ℚ) (hV : ValidConfig cfg)
    (hP : ValidPow pow05) :
    0 ≤ (finalMods cfg pow05).tst ∧ (finalMods cfg pow05).tst ≤ 960 := by
  obtain ⟨hac0, hac1⟩ := activeCaffeine_mem cfg pow05 hV hP
  have hsdb0 := hV.2.2.2.2.2.1
  have hsdb1 := hV.2.2.2.2.2.2.1
  have hbase := (baseMods_ok cfg.age).2
  rw [finalMods, rescaleStage_tst, nocturiaStage_tst, sdbStage_tst, preSdbMods,
    menopauseStage_tst, genderStage_tst, socialJetLagStage_tst, alcoholStage_tst,
    caffeineStage_tst, blueLightStage_tst]
  split_ifs <;> constructor <;> nlinarith

theorem latencyVal_ge (cfg : Config) (pow05 : ℚ) (hc : 0 ≤ cfg.caffeine) (hp : 0 ≤ pow05) :
    5 ≤ latencyVal cfg pow05 := by
  have hac : 0 ≤ activeCaffeine cfg.caffeine pow05 := mul_nonneg hc hp
  have hm : (0 : ℚ) ≤ max 0 ((cfg.age - 20) * 0.25) := le_max_left _ _
  rw [latencyVal]
  set l0 := 10 + max 0 ((cfg.age - 20) * 0.25) + activeCaffeine cfg.caffeine pow05 * 20
    + (if cfg.blueLight then (45 : ℚ) else 0) with hl0def
  have hbl : (0 : ℚ) ≤ (if cfg.blueLight then (45 : ℚ) else 0) := by split_ifs <;> norm_num
  have hl0 : 10 ≤ l0 := by rw [hl0def]; linarith
  set l1 := if 0 < cfg.alcohol then max 5 (l0 - cfg.alcohol * 5) else l0 with hl1def
  have hl1 : 5 ≤ l1 := by
    rw [hl1def]
    split_ifs
    · exact le_max_left _ _
    · linarith
  split_ifs <;> linarith

theorem initN1Dur_mem (cfg : Config) (pow05 : ℚ) (hc0 : 0 ≤ cfg.caffeine)
    (hc1 : cfg.caffeine ≤ 10) (hp0 : 0 ≤ pow05) (hp1 : pow05 ≤ 1) :
    5 ≤ initN1Dur cfg pow05 ∧ initN1Dur cfg pow05 ≤ 60 := by
  have hac : 0 ≤ activeCaffeine cfg.caffeine pow05 := mul_nonneg hc0 hp0
  have hac1 : activeCaffeine cfg.caffeine pow05 ≤ 10 := by
    calc cfg.caffeine * pow05 ≤ cfg.caffeine * 1 := mul_le_mul_of_nonneg_left hp1 hc0
      _ ≤ 10 := by linarith
  rw [initN1Dur]
  split_ifs <;> constructor <;> nlinarith

/-- C4: for every age in `[0, 100]`, the resolved profile's four stage
fractions are nonnegative, N2 (computed as the remainder, with the
renormalization safety branch) is strictly positive, and the four
fractions sum to exactly 1. -/
theorem ageProfile_fractions (age : ℚ) (h0 : 0 ≤ age) (h100 : age ≤ 100) :
    0 ≤ (getAgeProfile age).n3P ∧ 0 ≤ (getAgeProfile age).remP ∧
      0 ≤ (getAgeProfile age).n1P ∧ 0 < (getAgeProfile age).n2P ∧
      (getAgeProfile age).n3P + (getAgeProfile age).remP + (getAgeProfile age).n1P
        + (getAgeProfile age).n2P = 1 := by
  have h3 := n3_base_mem age
  have hr := rem_base_mem age
  have h1 := n1_base_mem age
  rw [getAgeProfile_eq]
  dsimp only
  refine ⟨by linarith [h3.1], by linarith [hr.1], by linarith [h1.1], ?_, by ring⟩
  linarith [h3.2, hr.2, h1.2]

theorem ageProfile_fractions_witness :
    0 ≤ (getAgeProfile 30).n3P ∧ 0 ≤ (getAgeProfile 30).remP ∧
      0 ≤ (getAgeProfile 30).n1P ∧ 0 < (getAgeProfile 30).n2P ∧
      (getAgeProfile 30).n3P + (getAgeProfile 30).remP + (getAgeProfile 30).n1P
        + (getAgeProfile 30).n2P = 1 :=
  ageProfile_fractions 30 (by norm_num) (by norm_num)

/-! ### Block-list bookkeeping -/

theorem sumDur_nil : sumDur [] = 0 := rfl

theorem sumDur_cons (b : Block) (bs : List Block) : sumDur (b :: bs) = b.duration + sumDur bs := by
  simp [sumDur]

theorem sumDur_append (l1 l2 : List Block) : sumDur (l1 ++ l2) = sumDur l1 + sumDur l2 := by
  simp [sumDur]

theorem sumSleep_append (l1 l2 : List Block) :
    sumSleep (l1 ++ l2) = sumSleep l1 + sumSleep l2 := by
  simp [sumSleep, List.filter_append]

theorem sumWake_append (l1 l2 : List Block) : sumWake (l1 ++ l2) = sumWake l1 + sumWake l2 := by
  simp [sumWake, List.filter_append]

theorem sumDur_eq_sleep_add_wake (bs : List Block) : sumDur bs = sumSleep bs + sumWake bs := by
  induction bs with
  | nil => simp [sumDur, sumSleep, sumWake]
  | cons b bs ih =>
    by_cases h : b.stage = Stage.WAKE <;>
      simp [sumDur, sumSleep, sumWake, List.filter_cons, h] at * <;> linarith

theorem sumWake_nonneg (bs : List Block) (h : ∀ b ∈ bs, 0 ≤ b.duration) : 0 ≤ sumWake bs := by
  refine List.sum_nonneg ?_
  intro x hx
  obtain ⟨b, hb, rfl⟩ := List.mem_map.mp hx
  exact h b (List.mem_of_mem_filter hb)

theorem sumSleep_nonneg (bs : List Block) (h : ∀ b ∈ bs, 0 ≤ b.duration) : 0 ≤ sumSleep bs := by
  refine List.sum_nonneg ?_
  intro x hx
  obtain ⟨b, hb, rfl⟩ := List.mem_map.mp hx
  exact h b (List.mem_of_mem_filter hb)

/-- Contiguity: a block list chains from time `t` when each block starts
where the previous one ended. -/
def chainedFrom : ℚ → List Block → Prop
  | _, [] => True
  | t, b :: bs => b.start = t ∧ chainedFrom (t + b.duration) bs

theorem chainedFrom_append (l1 l2 : List Block) :
    ∀ t, chainedFrom t (l1 ++ l2) ↔ chainedFrom t l1 ∧ chainedFrom (t + sumDur l1) l2 := by
  induction l1 with
  | nil => intro t; simp [chainedFrom, sumDur]
  | cons b l1 ih =>
    intro t
    rw [List.cons_append]
    show (b.start = t ∧ chainedFrom (t + b.duration) (l1 ++ l2)) ↔ _
    rw [ih (t + b.duration)]
    constructor
    · rintro ⟨hb, h1, h2⟩
      refine ⟨⟨hb, h1⟩, ?_⟩
      rw [sumDur_cons, ← add_assoc]
      exact h2
    · rintro ⟨⟨hb, h1⟩, h2⟩
      refine ⟨hb, h1, ?_⟩
      rw [sumDur_cons, ← add_assoc] at h2
      exact h2

theorem chainedFrom_get (bs : List Block) :
    ∀ t, chainedFrom t bs → ∀ i, (h : i + 1 < bs.length) →
      (bs.get ⟨i, by omega⟩).start + (bs.get ⟨i, by omega⟩).duration
        = (bs.get ⟨i + 1, h⟩).start := by
  induction bs with
  | nil => intro t _ i h; simp at h
  | cons b bs ih =>
    intro t hch i h
    obtain ⟨hb, hrest⟩ := hch
    match i with
    | 0 =>
      match bs, hrest, h with
      | c :: bs2, hrest2, _ =>
        simpa [hb, hrest2.1] using hrest2.1.symm
    | Nat.succ j =>
      exact ih (t + b.duration) hrest j (by simpa using h)

theorem wakeChunks_sumDur (c : ℚ) : ∀ (t : ℚ) (n : ℕ), sumDur (wakeChunks c t n) = n * c := by
  intro t n
  induction n generalizing t with
  | zero => simp [wakeChunks, sumDur]
  | succ n ih =>
    rw [wakeChunks, sumDur_cons, ih]
    push_cast
    ring

theorem wakeChunks_mem (c : ℚ) : ∀ (t : ℚ) (n : ℕ), ∀ b ∈ wakeChunks c t n,
    b.stage = Stage.WAKE ∧ b.duration = c := by
  intro t n
  induction n generalizing t with
  | zero => simp [wakeChunks]
  | succ n ih =>
    intro b hb
    rw [wakeChunks] at hb
    rcases List.mem_cons.mp hb with h | h
    · subst h; exact ⟨rfl, rfl⟩
    · exact ih _ b h

theorem wakeChunks_chained (c : ℚ) : ∀ (t : ℚ) (n : ℕ), chainedFrom t (wakeChunks c t n) := by
  intro t n
  induction n generalizing t with
  | zero => simp [wakeChunks, chainedFrom]
  | succ n ih => exact ⟨rfl, ih (t + c)⟩

theorem wakeChunks_sumWake (c : ℚ) (t : ℚ) (n : ℕ) : sumWake (wakeChunks c t n) = n * c := by
  have h := sumDur_eq_sleep_add_wake (wakeChunks c t n)
  rw [wakeChunks_sumDur] at h
  have hz : sumSleep (wakeChunks c t n) = 0 := by
    rw [sumSleep]
    have : (wakeChunks c t n).filter (fun b => b.stage ≠ Stage.WAKE) = [] := by
      rw [List.filter_eq_nil]
      intro b hb
      simp [(wakeChunks_mem c t n b hb).1]
    rw [this]
    rfl
  linarith

theorem popEq_len (k : ℤ) : ∀ l : List ℤ, (popEq k l).1 + (popEq k l).2.length = l.length := by
  intro l
  induction l with
  | nil => simp [popEq]
  | cons e rest ih =>
    rw [popEq]
    split_ifs
    · simpa [Nat.succ_eq_add_one] using by omega
    · simp

/-! ### Per-cycle locals -/

theorem locals_sum (ctx : Ctx) (k : ℕ) :
    localN3of ctx k + localREMof ctx k + localN2of ctx k = 1 := by
  rw [localN3of, localREMof, localN2of, localsNormed]
  set a := localN3raw ctx k
  set b := localREMraw ctx k
  split_ifs with h
  · have hab : (1 : ℚ) < a + b := by linarith
    have : a + b ≠ 0 := by linarith
    field_simp
    ring
  · dsimp only
    ring

theorem localREMraw_pos (ctx : Ctx) (k : ℕ) (hr : 0 < ctx.remP) : 0 < localREMraw ctx k := by
  rw [localREMraw]
  have hk : (0 : ℚ) ≤ (k : ℚ) := Nat.cast_nonneg k
  have hbase : 0 < ctx.remP * (0.5 + ((k : ℚ) * 0.20) * 1.5) := by nlinarith
  split_ifs with ha hk2
  · have : (0 : ℚ) < max 0.1 (1 - ctx.alcohol * 0.3) :=
      lt_of_lt_of_le (by norm_num) (le_max_left _ _)
    exact mul_pos hbase this
  · nlinarith
  · exact hbase

theorem localREMof_pos (ctx : Ctx) (k : ℕ) (hr : 0 < ctx.remP) : 0 < localREMof ctx k := by
  have hraw := localREMraw_pos ctx k hr
  rw [localREMof, localsNormed]
  set a := localN3raw ctx k
  set b := localREMraw ctx k
  split_ifs with h
  · have hab : (0 : ℚ) < a + b := by linarith
    dsimp only
    positivity
  · exact hraw

theorem localN2of_nonneg (ctx : Ctx) (k : ℕ) : 0 ≤ localN2of ctx k := by
  rw [localN2of, localsNormed]
  set a := localN3raw ctx k
  set b := localREMraw ctx k
  split_ifs with h
  · norm_num
  · dsimp only
    linarith [not_lt.mp h]

theorem localN3raw_neg (ctx : Ctx) (k : ℕ) (h3 : 0 < ctx.n3P) (hk : 7 ≤ k) :
    localN3raw ctx k < 0 := by
  rw [localN3raw]
  have hk7 : (7 : ℚ) ≤ (k : ℚ) := by exact_mod_cast hk
  have hbase : ctx.n3P * (1 - (k : ℚ) * 0.15) * 2.0 < 0 := by nlinarith
  split_ifs with ha hk2
  · omega
  · nlinarith
  · exact hbase

theorem localN3of_neg (ctx : Ctx) (k : ℕ) (h3 : 0 < ctx.n3P) (hk : 7 ≤ k) :
    localN3of ctx k < 0 := by
  have hraw := localN3raw_neg ctx k h3 hk
  rw [localN3of, localsNormed]
  set a := localN3raw ctx k
  set b := localREMraw ctx k
  split_ifs with h
  · have hab : (0 : ℚ) < a + b := by linarith
    dsimp only
    have : a / (a + b) < 0 := div_neg_of_neg_of_pos hraw hab
    nlinarith
  · exact hraw

theorem localN3raw_ge (ctx : Ctx) (k : ℕ) (h3 : 0 < ctx.n3P) (h3u : ctx.n3P ≤ 1/4)
    (hk : k ≤ 10) : -(1/4) ≤ localN3raw ctx k := by
  rw [localN3raw]
  have hk10 : (k : ℚ) ≤ 10 := by exact_mod_cast hk
  have hk0 : (0 : ℚ) ≤ (k : ℚ) := Nat.cast_nonneg k
  have hcore : -(1/2) ≤ 1 - (k : ℚ) * 0.15 := by linarith
  have hbase : -(1/4) ≤ ctx.n3P * (1 - (k : ℚ) * 0.15) * 2.0 := by nlinarith
  split_ifs with ha hk2
  · have hknum : (k : ℚ) ≤ 1 := by
      have : k ≤ 1 := by omega
      exact_mod_cast this
    have hpos : 0 < ctx.n3P * (1 - (k : ℚ) * 0.15) * 2.0 := by nlinarith
    have := mul_pos hpos (show (0 : ℚ) < 1 + ctx.alcohol * 0.1 by linarith)
    linarith
  · nlinarith
  · exact hbase

theorem localN3of_ge (ctx : Ctx) (k : ℕ) (h3 : 0 < ctx.n3P) (h3u : ctx.n3P ≤ 1/4)
    (hk : k ≤ 10) : -(1/4) ≤ localN3of ctx k := by
  have hraw := localN3raw_ge ctx k h3 h3u hk
  rw [localN3of, localsNormed]
  set a := localN3raw ctx k
  set b := localREMraw ctx k
  split_ifs with h
  · have hab : (1 : ℚ) < a + b := by linarith
    dsimp only
    rcases le_or_lt 0 a with ha | ha
    · have : 0 ≤ a / (a + b) * 0.9 := by positivity
      linarith
    · have hdiv : a / (a + b) * 0.9 = a * 0.9 / (a + b) := by ring
      rw [hdiv, le_div_iff (by linarith)]
      nlinarith
  · exact hraw

/-! ### Sleep-gain identities and bounds -/

theorem transN1val_mem (ctx : Ctx) : 2 ≤ transN1val ctx ∧ transN1val ctx ≤ 4 := by
  rw [transN1val]; split_ifs <;> norm_num

theorem sleepGain_eq (ctx : Ctx) (k : ℕ) (accum : ℚ) :
    sleepGain ctx k accum =
      ccsVal ctx accum * (1 - localN3of ctx k)
        + (if 0.01 < localN3of ctx k then ccsVal ctx accum * localN3of ctx k else 0)
        + (if 81 ≤ ccsVal ctx accum then transN1val ctx else 0) := by
  rw [sleepGain]
  have h := locals_sum ctx k
  have h2 : localN2of ctx k = 1 - localN3of ctx k - localREMof ctx k := by linarith
  rw [h2]
  ring

theorem sleepGain_ge99 (ctx : Ctx) (k : ℕ) (accum : ℚ) (hccs : 0 ≤ ccsVal ctx accum) :
    99/100 * ccsVal ctx accum ≤ sleepGain ctx k accum := by
  rw [sleepGain_eq]
  have ht := transN1val_mem ctx
  split_ifs with hE hT hT
  · nlinarith
  · nlinarith
  · have := mul_le_mul_of_nonneg_left (show 99/100 ≤ 1 - localN3of ctx k by linarith) hccs
    nlinarith
  · have := mul_le_mul_of_nonneg_left (show 99/100 ≤ 1 - localN3of ctx k by linarith) hccs
    nlinarith

theorem sleepGain_ge_ccs (ctx : Ctx) (k : ℕ) (accum : ℚ) (hccs : 0 ≤ ccsVal ctx accum)
    (hl3 : localN3of ctx k ≤ 0) : ccsVal ctx accum ≤ sleepGain ctx k accum := by
  rw [sleepGain_eq]
  have ht := transN1val_mem ctx
  split_ifs with hE hT hT
  · linarith
  · linarith
  · have := mul_le_mul_of_nonneg_left (show 1 ≤ 1 - localN3of ctx k by linarith) hccs
    nlinarith
  · have := mul_le_mul_of_nonneg_left (show 1 ≤ 1 - localN3of ctx k by linarith) hccs
    nlinarith

theorem step_overshoot (ctx : Ctx) (k : ℕ) (accum : ℚ) (hguard : accum < ctx.tst)
    (hl3 : -(1/4) ≤ localN3of ctx k) :
    accum + sleepGain ctx k accum ≤ ctx.tst + 53/2 := by
  rw [sleepGain_eq]
  have hccs_le : ccsVal ctx accum ≤ ctx.tst - accum := min_le_right _ _
  have hccs90 : ccsVal ctx accum ≤ 90 := min_le_left _ _
  have hccs0 : 0 < ccsVal ctx accum := lt_min (by norm_num) (by linarith)
  have ht := transN1val_mem ctx
  split_ifs with hE hT hT
  · nlinarith
  · nlinarith
  · rcases le_or_lt (localN3of ctx k) 0 with h0 | h0
    · nlinarith [mul_nonneg (by linarith : (0:ℚ) ≤ 90 - ccsVal ctx accum)
        (by linarith : (0:ℚ) ≤ -localN3of ctx k)]
    · nlinarith [mul_pos hccs0 h0]
  · rcases le_or_lt (localN3of ctx k) 0 with h0 | h0
    · nlinarith [mul_nonneg (by linarith : (0:ℚ) ≤ 90 - ccsVal ctx accum)
        (by linarith : (0:ℚ) ≤ -localN3of ctx k)]
    · nlinarith [mul_pos hccs0 h0]

/-! ### Cycle-block accounting -/

theorem wakeChunks_sumSleep (c : ℚ) (t : ℚ) (n : ℕ) : sumSleep (wakeChunks c t n) = 0 := by
  rw [sumSleep]
  have h : (wakeChunks c t n).filter (fun b => b.stage ≠ Stage.WAKE) = [] := by
    rw [List.filter_eq_nil]
    intro b hb
    simp [(wakeChunks_mem c t n b hb).1]
  rw [h]
  rfl

theorem sumSleep_nil : sumSleep [] = 0 := rfl

theorem sumSleep_cons (b : Block) (bs : List Block) :
    sumSleep (b :: bs) = (if b.stage = Stage.WAKE then 0 else b.duration) + sumSleep bs := by
  by_cases h : b.stage = Stage.WAKE <;> simp [sumSleep, List.filter_cons, h]

theorem sumWake_nil : sumWake [] = 0 := rfl

theorem sumWake_cons (b : Block) (bs : List Block) :
    sumWake (b :: bs) = (if b.stage = Stage.WAKE then b.duration else 0) + sumWake bs := by
  by_cases h : b.stage = Stage.WAKE <;> simp [sumWake, List.filter_cons, h]

theorem cycleBlocks_sumDur (ctx : Ctx) (s : LoopState) :
    sumDur (cycleBlocks ctx s) = sleepGain ctx s.cycleIndex s.accumulatedSleep
      + ((popEq (s.cycleIndex : ℤ) s.pending).1 : ℚ) * ctx.chunkDur := by
  rw [cycleBlocks, sleepGain]
  split_ifs with hE hT hT <;>
    simp only [sumDur_append, sumDur_cons, sumDur_nil, wakeChunks_sumDur] <;> ring

theorem cycleBlocks_sumSleep (ctx : Ctx) (s : LoopState) :
    sumSleep (cycleBlocks ctx s) = sleepGain ctx s.cycleIndex s.accumulatedSleep := by
  rw [cycleBlocks, sleepGain]
  split_ifs with hE hT hT <;>
    simp [sumSleep_append, sumSleep_cons, sumSleep_nil, wakeChunks_sumSleep] <;> ring

theorem cycleBlocks_sumWake (ctx : Ctx) (s : LoopState) :
    sumWake (cycleBlocks ctx s)
      = ((popEq (s.cycleIndex : ℤ) s.pending).1 : ℚ) * ctx.chunkDur := by
  rw [cycleBlocks]
  split_ifs with hE hT hT <;>
    simp [sumWake_append, sumWake_cons, sumWake_nil, wakeChunks_sumWake]

theorem cycleBlocks_chained (ctx : Ctx) (s : LoopState) :
    chainedFrom s.currentTime (cycleBlocks ctx s) := by
  rw [cycleBlocks]
  split_ifs with hE hT hT
  · exact ⟨rfl, rfl, rfl, rfl, rfl, wakeChunks_chained _ _ _⟩
  · exact ⟨rfl, rfl, rfl, rfl, wakeChunks_chained _ _ _⟩
  · exact ⟨rfl, rfl, rfl, rfl, wakeChunks_chained _ _ _⟩
  · exact ⟨rfl, rfl, rfl, wakeChunks_chained _ _ _⟩

theorem cycleBlocks_dur_nonneg (ctx : Ctx) (s : LoopState)
    (hccs : 0 ≤ ccsVal ctx s.accumulatedSleep) (hrem : 0 < ctx.remP)
    (hcd : 0 ≤ ctx.chunkDur) :
    ∀ b ∈ cycleBlocks ctx s, 0 ≤ b.duration := by
  have h2 := localN2of_nonneg ctx s.cycleIndex
  have hR := (localREMof_pos ctx s.cycleIndex hrem).le
  have ht := transN1val_mem ctx
  intro b hb
  rw [cycleBlocks] at hb
  split_ifs at hb with hE hT hT <;>
    simp only [List.mem_append, List.mem_singleton, List.not_mem_nil, or_false, false_or,
      or_assoc] at hb
  · rcases hb with h | h | h | h | h | h
    · subst h; exact mul_nonneg hccs (mul_nonneg h2 (by norm_num))
    · subst h; exact mul_nonneg hccs (by linarith)
    · subst h; exact mul_nonneg hccs (mul_nonneg h2 (by norm_num))
    · subst h; exact mul_nonneg hccs hR
    · subst h; linarith [ht.1]
    · rw [(wakeChunks_mem _ _ _ b h).2]; exact hcd
  · rcases hb with h | h | h | h | h
    · subst h; exact mul_nonneg hccs (mul_nonneg h2 (by norm_num))
    · subst h; exact mul_nonneg hccs (by linarith)
    · subst h; exact mul_nonneg hccs (mul_nonneg h2 (by norm_num))
    · subst h; exact mul_nonneg hccs hR
    · rw [(wakeChunks_mem _ _ _ b h).2]; exact hcd
  · rcases hb with h | h | h | h | h
    · subst h; exact mul_nonneg hccs (mul_nonneg h2 (by norm_num))
    · subst h; exact mul_nonneg hccs (mul_nonneg h2 (by norm_num))
    · subst h; exact mul_nonneg hccs hR
    · subst h; linarith [ht.1]
    · rw [(wakeChunks_mem _ _ _ b h).2]; exact hcd
  · rcases hb with h | h | h | h
    · subst h; exact mul_nonneg hccs (mul_nonneg h2 (by norm_num))
    · subst h; exact mul_nonneg hccs (mul_nonneg h2 (by norm_num))
    · subst h; exact mul_nonneg hccs hR
    · rw [(wakeChunks_mem _ _ _ b h).2]; exact hcd

theorem cycleBlocks_wake_dur (ctx : Ctx) (s : LoopState) :
    ∀ b ∈ cycleBlocks ctx s, b.stage = Stage.WAKE → b.duration = ctx.chunkDur := by
  intro b hb hw
  rw [cycleBlocks] at hb
  split_ifs at hb with hE hT hT <;>
    simp only [List.mem_append, List.mem_singleton, List.not_mem_nil, or_false, false_or,
      or_assoc] at hb
  · rcases hb with h | h | h | h | h | h <;>
      first
        | (subst h; simp at hw)
        | (exact (wakeChunks_mem _ _ _ b h).2)
  · rcases hb with h | h | h | h | h <;>
      first
        | (subst h; simp at hw)
        | (exact (wakeChunks_mem _ _ _ b h).2)
  · rcases hb with h | h | h | h | h <;>
      first
        | (subst h; simp at hw)
        | (exact (wakeChunks_mem _ _ _ b h).2)
  · rcases hb with h | h | h | h <;>
      first
        | (subst h; simp at hw)
        | (exact (wakeChunks_mem _ _ _ b h).2)

/-! ### The loop invariant -/

/-- The bookkeeping invariant of the cycle loop, relative to the loop
constants: `lat` is the initial latency WAKE duration and `N` the number
of scheduled WASO chunks. -/
structure Inv (ctx : Ctx) (lat : ℚ) (N : ℕ) (s : LoopState) : Prop where
  time_eq : s.currentTime = sumDur s.blocks
  sleep_eq : s.accumulatedSleep = sumSleep s.blocks
  chain : chainedFrom 0 s.blocks
  dur_nonneg : ∀ b ∈ s.blocks, 0 ≤ b.duration
  wake_eq : sumWake s.blocks = lat + ctx.chunkDur * ((N : ℚ) - (s.pending.length : ℚ))
  wake_dur : ∀ b ∈ s.blocks, b.stage = Stage.WAKE → b.duration = lat ∨ b.duration = ctx.chunkDur
  nonempty : s.blocks ≠ []
  accum_pos : 0 < s.accumulatedSleep

theorem ccsVal_nonneg (ctx : Ctx) (accum : ℚ) (hg : accum < ctx.tst) :
    0 ≤ ccsVal ctx accum :=
  le_min (by norm_num) (by linarith)

theorem ccsVal_pos (ctx : Ctx) (accum : ℚ) (hg : accum < ctx.tst) : 0 < ccsVal ctx accum :=
  lt_min (by norm_num) (by linarith)

theorem sleepGain_pos (ctx : Ctx) (k : ℕ) (accum : ℚ) (hg : accum < ctx.tst) :
    0 < sleepGain ctx k accum := by
  have h99 := sleepGain_ge99 ctx k accum (ccsVal_nonneg ctx accum hg)
  have := ccsVal_pos ctx accum hg
  linarith

theorem Inv_step (ctx : Ctx) (lat : ℚ) (N : ℕ) (s : LoopState) (hI : Inv ctx lat N s)
    (hg : s.accumulatedSleep < ctx.tst) (hrem : 0 < ctx.remP) (hcd : 0 ≤ ctx.chunkDur) :
    Inv ctx lat N (cycleStep ctx s) := by
  have hccs := ccsVal_nonneg ctx s.accumulatedSleep hg
  have hgain := (sleepGain_pos ctx s.cycleIndex s.accumulatedSleep hg).le
  have hlen := popEq_len (s.cycleIndex : ℤ) s.pending
  refine ⟨?_, ?_, ?_, ?_, ?_, ?_, ?_, ?_⟩
  · show s.currentTime + _ + _ = sumDur (s.blocks ++ cycleBlocks ctx s)
    rw [sumDur_append, cycleBlocks_sumDur, hI.time_eq]
    ring
  · show s.accumulatedSleep + _ = sumSleep (s.blocks ++ cycleBlocks ctx s)
    rw [sumSleep_append, cycleBlocks_sumSleep, hI.sleep_eq]
  · show chainedFrom 0 (s.blocks ++ cycleBlocks ctx s)
    rw [chainedFrom_append]
    refine ⟨hI.chain, ?_⟩
    rw [zero_add, ← hI.time_eq]
    exact cycleBlocks_chained ctx s
  · intro b hb
    rcases List.mem_append.mp hb with h | h
    · exact hI.dur_nonneg b h
    · exact cycleBlocks_dur_nonneg ctx s hccs hrem hcd b h
  · show sumWake (s.blocks ++ cycleBlocks ctx s)
      = lat + ctx.chunkDur * ((N : ℚ) - ((popEq (s.cycleIndex : ℤ) s.pending).2.length : ℚ))
    rw [sumWake_append, cycleBlocks_sumWake, hI.wake_eq]
    have hcast : ((popEq (s.cycleIndex : ℤ) s.pending).1 : ℚ)
        + ((popEq (s.cycleIndex : ℤ) s.pending).2.length : ℚ) = (s.pending.length : ℚ) := by
      exact_mod_cast congrArg (fun n : ℕ => (n : ℚ)) hlen
    nlinarith [hcast]
  · intro b hb hw
    rcases List.mem_append.mp hb with h | h
    · exact hI.wake_dur b h hw
    · exact Or.inr (cycleBlocks_wake_dur ctx s b h hw)
  · show s.blocks ++ cycleBlocks ctx s ≠ []
    intro hnil
    exact hI.nonempty (List.append_eq_nil.mp hnil).1
  · show 0 < s.accumulatedSleep + _
    linarith [hI.accum_pos]

theorem Inv_run (ctx : Ctx) (lat : ℚ) (N : ℕ) (hrem : 0 < ctx.remP) (hcd : 0 ≤ ctx.chunkDur) :
    ∀ (n : ℕ) (s : LoopState), Inv ctx lat N s → Inv ctx lat N (loopRun ctx n s) := by
  intro n
  induction n with
  | zero => intro s h; exact h
  | succ n ih =>
    intro s h
    rw [loopRun]
    split_ifs with hg
    · exact ih _ (Inv_step ctx lat N s h hg hrem hcd)
    · exact h

/-! ### Loop-run structure lemmas -/

theorem loopRun_dead (ctx : Ctx) (n : ℕ) (s : LoopState)
    (h : ¬ s.accumulatedSleep < ctx.tst) : loopRun ctx n s = s := by
  cases n with
  | zero => rfl
  | succ n => rw [loopRun, if_neg h]

theorem loopRun_add (ctx : Ctx) : ∀ (m n : ℕ) (s : LoopState),
    loopRun ctx (m + n) s = loopRun ctx n (loopRun ctx m s) := by
  intro m
  induction m with
  | zero => intro n s; rw [Nat.zero_add]; rfl
  | succ m ih =>
    intro n s
    rw [Nat.succ_add, loopRun, loopRun]
    split_ifs with h
    · exact ih n (cycleStep ctx s)
    · exact (loopRun_dead ctx n s h).symm

theorem loopRun_succ_out (ctx : Ctx) : ∀ (n : ℕ) (s : LoopState),
    loopRun ctx (n + 1) s =
      if (loopRun ctx n s).accumulatedSleep < ctx.tst then cycleStep ctx (loopRun ctx n s)
      else loopRun ctx n s := by
  intro n s
  rw [loopRun_add ctx n 1 s, loopRun]
  split_ifs <;> rfl

theorem accum_mono_run (ctx : Ctx) : ∀ (n : ℕ) (s : LoopState),
    s.accumulatedSleep ≤ (loopRun ctx n s).accumulatedSleep := by
  intro n
  induction n with
  | zero => intro s; exact le_refl _
  | succ n ih =>
    intro s
    rw [loopRun]
    split_ifs with hg
    · have h1 : s.accumulatedSleep ≤ (cycleStep ctx s).accumulatedSleep := by
        have := (sleepGain_pos ctx s.cycleIndex s.accumulatedSleep hg).le
        show s.accumulatedSleep ≤ s.accumulatedSleep + _
        linarith
      exact le_trans h1 (ih (cycleStep ctx s))
    · exact le_refl _

theorem cycleIndex_run_alive (ctx : Ctx) : ∀ (n : ℕ) (s : LoopState),
    (loopRun ctx n s).accumulatedSleep < ctx.tst →
      (loopRun ctx n s).cycleIndex = s.cycleIndex + n := by
  intro n
  induction n with
  | zero => intro s _; rfl
  | succ n ih =>
    intro s halive
    rw [loopRun] at halive ⊢
    split_ifs at halive ⊢ with hg
    · have := ih (cycleStep ctx s) halive
      rw [this]
      show s.cycleIndex + 1 + n = s.cycleIndex + (n + 1)
      omega
    · exact absurd halive hg

/-! ### Termination of the continuous loop -/

theorem run_term (ctx : Ctx) (h3 : 0 < ctx.n3P) (h3u : ctx.n3P ≤ 1/4) (hrem : 0 < ctx.remP)
    (htst : ctx.tst ≤ 960) (s0 : LoopState) (hk0 : s0.cycleIndex = 0)
    (ha0 : 5 ≤ s0.accumulatedSleep) :
    ctx.tst ≤ (loopRun ctx 11 s0).accumulatedSleep := by
  by_contra hlt
  push_neg at hlt
  have halive : ∀ j, j ≤ 11 → (loopRun ctx j s0).accumulatedSleep < ctx.tst := by
    intro j hj
    have hsplit : loopRun ctx 11 s0 = loopRun ctx (11 - j) (loopRun ctx j s0) := by
      rw [← loopRun_add]
      congr 1
      omega
    have hm := accum_mono_run ctx (11 - j) (loopRun ctx j s0)
    rw [← hsplit] at hm
    exact lt_of_le_of_lt hm hlt
  have hk : ∀ j, j ≤ 11 → (loopRun ctx j s0).cycleIndex = j := by
    intro j hj
    rw [cycleIndex_run_alive ctx j s0 (halive j hj), hk0, Nat.zero_add]
  have key : ∀ j, j ≤ 10 →
      ctx.tst - (loopRun ctx j s0).accumulatedSleep < 90 ∨
        s0.accumulatedSleep + (891/10) * (j : ℚ) ≤ (loopRun ctx j s0).accumulatedSleep := by
    intro j
    induction j with
    | zero =>
      intro _
      right
      show s0.accumulatedSleep + 891/10 * ((0 : ℕ) : ℚ) ≤ s0.accumulatedSleep
      norm_num
    | succ j ih =>
      intro hj
      have hmono : (loopRun ctx j s0).accumulatedSleep
          ≤ (loopRun ctx (j + 1) s0).accumulatedSleep := by
        rw [loopRun_add ctx j 1 s0]
        exact accum_mono_run ctx 1 (loopRun ctx j s0)
      rcases ih (by omega) with h | h
      · left
        push_cast
        linarith
      · rcases lt_or_le (ctx.tst - (loopRun ctx j s0).accumulatedSleep) 90 with h90 | h90
        · left
          linarith
        · right
          have halivej := halive j (by omega)
          have hccs : ccsVal ctx (loopRun ctx j s0).accumulatedSleep = 90 := by
            rw [ccsVal]
            exact min_eq_left h90
          have hstep : loopRun ctx (j + 1) s0 = cycleStep ctx (loopRun ctx j s0) := by
            rw [loopRun_succ_out, if_pos halivej]
          have hgain := sleepGain_ge99 ctx (loopRun ctx j s0).cycleIndex
            (loopRun ctx j s0).accumulatedSleep (by rw [hccs]; norm_num)
          rw [hccs] at hgain
          have haccstep : (loopRun ctx (j + 1) s0).accumulatedSleep
              = (loopRun ctx j s0).accumulatedSleep
                + sleepGain ctx (loopRun ctx j s0).cycleIndex
                    (loopRun ctx j s0).accumulatedSleep := by
            rw [hstep]; rfl
          rw [haccstep]
          push_cast
          linarith
  have hrem90 : ctx.tst - (loopRun ctx 10 s0).accumulatedSleep < 90 := by
    rcases key 10 (le_refl _) with h | h
    · exact h
    · push_cast at h
      linarith
  have halive10 := halive 10 (by omega)
  have hl3 : localN3of ctx 10 < 0 := localN3of_neg ctx 10 h3 (by omega)
  have hccs10 : ccsVal ctx (loopRun ctx 10 s0).accumulatedSleep
      = ctx.tst - (loopRun ctx 10 s0).accumulatedSleep := by
    rw [ccsVal]
    exact min_eq_right (by linarith)
  have hgain := sleepGain_ge_ccs ctx (loopRun ctx 10 s0).cycleIndex
    (loopRun ctx 10 s0).accumulatedSleep (ccsVal_nonneg _ _ halive10)
    (by rw [hk 10 (by omega)]; exact hl3.le)
  have hstep : loopRun ctx 11 s0 = cycleStep ctx (loopRun ctx 10 s0) := by
    have h1011 : (10 : ℕ) + 1 = 11 := rfl
    rw [← h1011, loopRun_succ_out, if_pos halive10]
  have hfinal : ctx.tst ≤ (loopRun ctx 11 s0).accumulatedSleep := by
    rw [hstep]
    show ctx.tst ≤ (loopRun ctx 10 s0).accumulatedSleep + _
    rw [hccs10] at hgain
    linarith
  exact absurd hfinal (not_le.mpr (halive 11 (le_refl _)))

theorem run_upper (ctx : Ctx) (h3 : 0 < ctx.n3P) (h3u : ctx.n3P ≤ 1/4) (s0 : LoopState)
    (hk0 : s0.cycleIndex = 0) :
    ∀ j, j ≤ 11 → (loopRun ctx j s0).accumulatedSleep ≤ s0.accumulatedSleep ∨
      (loopRun ctx j s0).accumulatedSleep ≤ ctx.tst + 53/2 := by
  intro j
  induction j with
  | zero => intro _; left; exact le_refl _
  | succ j ih =>
    intro hj
    rw [loopRun_succ_out]
    split_ifs with hg
    · right
      have hkj : (loopRun ctx j s0).cycleIndex = j := by
        rw [cycleIndex_run_alive ctx j s0 hg, hk0, Nat.zero_add]
      have hl3 := localN3of_ge ctx j h3 h3u (by omega)
      have hov := step_overshoot ctx (loopRun ctx j s0).cycleIndex
        (loopRun ctx j s0).accumulatedSleep hg (by rw [hkj]; exact hl3)
      exact hov
    · exact ih (by omega)

/-! ### The generator's final loop state -/

/-- The loop state when the continuous cycle loop finishes. -/
def finalState (cfg : Config) (pow05 : ℚ) (rand : ℕ → ℚ) : LoopState :=
  loopRun (mkCtx cfg pow05) FUEL (initState cfg pow05 rand)

theorem wakeChunkDuration_nonneg (w : ℚ) (hw : 0 ≤ w) : 0 ≤ wakeChunkDuration w :=
  div_nonneg hw (Nat.cast_nonneg _)

theorem numWakeChunks_pos (w : ℚ) : 0 < numWakeChunks w := by
  rw [numWakeChunks]
  have h1 : (1 : ℤ) ≤ max 1 ⌊w / 15⌋ := le_max_left _ _
  omega

theorem chunkDur_mul_numChunks (w : ℚ) :
    wakeChunkDuration w * ((numWakeChunks w : ℚ)) = w := by
  rw [wakeChunkDuration]
  exact div_mul_cancel₀ _ (Nat.cast_ne_zero.mpr (numWakeChunks_pos w).ne')

theorem wakeIdxList_length (w t : ℚ) (rand : ℕ → ℚ) :
    (wakeIdxList w t rand).length = numWakeChunks w := by
  rw [wakeIdxList, List.length_insertionSort, List.length_map, List.length_range]

theorem Inv_init (cfg : Config) (pow05 : ℚ) (rand : ℕ → ℚ) (hV : ValidConfig cfg)
    (hP : ValidPow pow05) :
    Inv (mkCtx cfg pow05) (latencyVal cfg pow05) (numWakeChunks (finalMods cfg pow05).wasoMins)
      (initState cfg pow05 rand) := by
  obtain ⟨-, -, -, hc0, hc1, -⟩ := hV
  obtain ⟨hp0, hp1⟩ := hP
  have hlat := latencyVal_ge cfg pow05 hc0 hp0
  have hN1 := initN1Dur_mem cfg pow05 hc0 hc1 hp0 hp1
  have hstate : initState cfg pow05 rand =
      { blocks := [{ stage := Stage.WAKE, duration := latencyVal cfg pow05, start := 0 },
                   { stage := Stage.N1, duration := initN1Dur cfg pow05,
                     start := latencyVal cfg pow05 }],
        currentTime := latencyVal cfg pow05 + initN1Dur cfg pow05,
        accumulatedSleep := initN1Dur cfg pow05,
        cycleIndex := 0,
        pending := wakeIdxList (finalMods cfg pow05).wasoMins (finalMods cfg pow05).tst rand } :=
    rfl
  rw [hstate]
  refine ⟨?_, ?_, ?_, ?_, ?_, ?_, ?_, ?_⟩
  · dsimp only
    simp [sumDur_cons, sumDur_nil]
  · dsimp only
    simp [sumSleep_cons, sumSleep_nil]
  · exact ⟨rfl, (zero_add _).symm, trivial⟩
  · intro b hb
    rcases List.mem_cons.mp hb with h | h
    · subst h; dsimp only; linarith
    · rcases List.mem_cons.mp h with h2 | h2
      · subst h2; dsimp only; linarith
      · simp at h2
  · dsimp only
    rw [wakeIdxList_length]
    simp [sumWake_cons, sumWake_nil]
  · intro b hb hw
    rcases List.mem_cons.mp hb with h | h
    · subst h; exact Or.inl rfl
    · rcases List.mem_cons.mp h with h2 | h2
      · subst h2; simp at hw
      · simp at h2
  · simp
  · dsimp only
    linarith

theorem mkCtx_remP (cfg : Config) (pow05 : ℚ) :
    (mkCtx cfg pow05).remP = (finalMods cfg pow05).remP := rfl

theorem Inv_final (cfg : Config) (pow05 : ℚ) (rand : ℕ → ℚ) (hV : ValidConfig cfg)
    (hP : ValidPow pow05) :
    Inv (mkCtx cfg pow05) (latencyVal cfg pow05) (numWakeChunks (finalMods cfg pow05).wasoMins)
      (finalState cfg pow05 rand) := by
  have hok := finalMods_ok cfg pow05 hV hP
  refine Inv_run (mkCtx cfg pow05) _ _ ?_ ?_ FUEL _ (Inv_init cfg pow05 rand hV hP)
  · exact hok.2.2.1
  · exact wakeChunkDuration_nonneg _ hok.2.2.2.2.2

/-- The while loop's guard fails after `FUEL = 11` iterations. -/
theorem generate_term (cfg : Config) (pow05 : ℚ) (rand : ℕ → ℚ) (hV : ValidConfig cfg)
    (hP : ValidPow pow05) :
    (finalMods cfg pow05).tst ≤ (finalState cfg pow05 rand).accumulatedSleep := by
  have hok := finalMods_ok cfg pow05 hV hP
  have htst := finalMods_tst_mem cfg pow05 hV hP
  obtain ⟨-, -, -, hc0, hc1, -⟩ := hV
  obtain ⟨hp0, hp1⟩ := hP
  have hN1 := initN1Dur_mem cfg pow05 hc0 hc1 hp0 hp1
  exact run_term (mkCtx cfg pow05) hok.1 hok.2.1 hok.2.2.1 htst.2
    (initState cfg pow05 rand) rfl hN1.1

/-! ### Shifted-block lemmas (post-processing map) -/

theorem sumDur_map_shift (off : ℚ) (bs : List Block) :
    sumDur (bs.map (fun b => { b with start := b.start + 240 + off })) = sumDur bs := by
  induction bs with
  | nil => rfl
  | cons b bs ih => simp only [List.map_cons, sumDur_cons, ih]

theorem sumSleep_map_shift (off : ℚ) (bs : List Block) :
    sumSleep (bs.map (fun b => { b with start := b.start + 240 + off })) = sumSleep bs := by
  induction bs with
  | nil => rfl
  | cons b bs ih => simp only [List.map_cons, sumSleep_cons, ih]

theorem sumWake_map_shift (off : ℚ) (bs : List Block) :
    sumWake (bs.map (fun b => { b with start := b.start + 240 + off })) = sumWake bs := by
  induction bs with
  | nil => rfl
  | cons b bs ih => simp only [List.map_cons, sumWake_cons, ih]

theorem chained_map_shift (off : ℚ) :
    ∀ (bs : List Block) (t : ℚ), chainedFrom t bs →
      chainedFrom (t + 240 + off) (bs.map (fun b => { b with start := b.start + 240 + off })) := by
  intro bs
  induction bs with
  | nil => intro t _; trivial
  | cons b bs ih =>
    intro t h
    refine ⟨?_, ?_⟩
    · show b.start + 240 + off = t + 240 + off
      rw [h.1]
    · have h2 := ih (t + b.duration) h.2
      rwa [show t + b.duration + 240 + off = t + 240 + off + b.duration from by ring] at h2

/-! ### Projections of `generate` -/

theorem generate_blocks_eq (cfg : Config) (pow05 : ℚ) (rand : ℕ → ℚ) :
    (generate cfg pow05 rand).blocks = (finalState cfg pow05 rand).blocks.map
      (fun b => { b with start := b.start + 240 + startTimeOffsetVal cfg }) := rfl

theorem generate_stats_tib (cfg : Config) (pow05 : ℚ) (rand : ℕ → ℚ) :
    (generate cfg pow05 rand).stats.tib = (finalState cfg pow05 rand).currentTime := rfl

theorem generate_stats_tst (cfg : Config) (pow05 : ℚ) (rand : ℕ → ℚ) :
    (generate cfg pow05 rand).stats.tst = sumSleep (finalState cfg pow05 rand).blocks := rfl

theorem generate_stats_se (cfg : Config) (pow05 : ℚ) (rand : ℕ → ℚ) :
    (generate cfg pow05 rand).stats.sleepEfficiency
      = sumSleep (finalState cfg pow05 rand).blocks
        / (finalState cfg pow05 rand).currentTime * 100 := rfl

theorem generate_stats_n3P (cfg : Config) (pow05 : ℚ) (rand : ℕ → ℚ) :
    (generate cfg pow05 rand).stats.n3P = (finalMods cfg pow05).n3P := rfl

theorem generate_stats_waso (cfg : Config) (pow05 : ℚ) (rand : ℕ → ℚ) :
    (generate cfg pow05 rand).stats.wasoMins = (finalMods cfg pow05).wasoMins := rfl

theorem generate_stats_latency (cfg : Config) (pow05 : ℚ) (rand : ℕ → ℚ) :
    (generate cfg pow05 rand).stats.latency = latencyVal cfg pow05 := rfl

/-- A no-modifier configuration used as a concrete witness input. -/
def cfgBase : Config :=
  { age := 30, gender := Gender.female, alcohol := 0, caffeine := 0, sdbSeverity := 0,
    nocturia := 0, chronotype := Chronotype.normal, socialJetLag := false, blueLight := false,
    isMenopausal := false }

theorem cfgBase_valid : ValidConfig cfgBase := by
  refine ⟨?_, ?_, ?_, ?_, ?_, ?_, ?_, ?_, ?_⟩ <;> norm_num [cfgBase]

theorem one_validPow : ValidPow 1 := ⟨by norm_num, le_refl 1⟩

/-! ### Claims about the generated result -/

/-- C1: for every Configuration with fields in the documented ranges and
any random draw, the sum of the durations of all blocks equals
`timeInBed`, the sum of the durations of all non-WAKE blocks equals
`actualTotalSleep` (`stats.tst`), and `actualTotalSleep ≤ timeInBed`. -/
theorem claim_sum_accounting (cfg : Config) (pow05 : ℚ) (rand : ℕ → ℚ)
    (hV : ValidConfig cfg) (hP : ValidPow pow05) :
    sumDur (generate cfg pow05 rand).blocks = (generate cfg pow05 rand).stats.tib ∧
      sumSleep (generate cfg pow05 rand).blocks = (generate cfg pow05 rand).stats.tst ∧
      (generate cfg pow05 rand).stats.tst ≤ (generate cfg pow05 rand).stats.tib := by
  have hI := Inv_final cfg pow05 rand hV hP
  rw [generate_blocks_eq, generate_stats_tib, generate_stats_tst, sumDur_map_shift,
    sumSleep_map_shift]
  refine ⟨hI.time_eq.symm, rfl, ?_⟩
  rw [hI.time_eq, sumDur_eq_sleep_add_wake]
  have := sumWake_nonneg _ hI.dur_nonneg
  linarith

theorem claim_sum_accounting_witness :
    sumDur (generate cfgBase 1 (fun _ => 0)).blocks
        = (generate cfgBase 1 (fun _ => 0)).stats.tib ∧
      sumSleep (generate cfgBase 1 (fun _ => 0)).blocks
        = (generate cfgBase 1 (fun _ => 0)).stats.tst ∧
      (generate cfgBase 1 (fun _ => 0)).stats.tst ≤ (generate cfgBase 1 (fun _ => 0)).stats.tib :=
  claim_sum_accounting cfgBase 1 (fun _ => 0) cfgBase_valid one_validPow

/-- C2: for every Configuration and any random draw, the returned blocks
are contiguous and non-overlapping (each block's start plus its duration
is the next block's start), and the first block starts at the shifted
anchor `240 + startTimeOffset` (pre-shift time 0). -/
theorem claim_blocks_contiguous (cfg : Config) (pow05 : ℚ) (rand : ℕ → ℚ)
    (hV : ValidConfig cfg) (hP : ValidPow pow05) :
    (∀ i, ∀ h : i + 1 < (generate cfg pow05 rand).blocks.length,
      ((generate cfg pow05 rand).blocks.get ⟨i, by omega⟩).start
          + ((generate cfg pow05 rand).blocks.get ⟨i, by omega⟩).duration
        = ((generate cfg pow05 rand).blocks.get ⟨i + 1, h⟩).start) ∧
      ∃ b rest, (generate cfg pow05 rand).blocks = b :: rest ∧
        b.start = 240 + startTimeOffsetVal cfg := by
  have hI := Inv_final cfg pow05 rand hV hP
  have hch : chainedFrom (0 + 240 + startTimeOffsetVal cfg) (generate cfg pow05 rand).blocks :=
    chained_map_shift (startTimeOffsetVal cfg) _ 0 hI.chain
  constructor
  · intro i h
    exact chainedFrom_get _ _ hch i h
  · cases hbs : (finalState cfg pow05 rand).blocks with
    | nil => exact absurd hbs hI.nonempty
    | cons b rest =>
      refine ⟨{ b with start := b.start + 240 + startTimeOffsetVal cfg },
        rest.map (fun b => { b with start := b.start + 240 + startTimeOffsetVal cfg }), ?_, ?_⟩
      · rw [generate_blocks_eq, hbs]
        rfl
      · have hb0 : b.start = 0 := by
          have hc := hI.chain
          rw [hbs] at hc
          exact hc.1
        dsimp only
        rw [hb0]
        ring

theorem claim_blocks_contiguous_witness :
    (∀ i, ∀ h : i + 1 < (generate cfgBase 1 (fun _ => 0)).blocks.length,
      ((generate cfgBase 1 (fun _ => 0)).blocks.get ⟨i, by omega⟩).start
          + ((generate cfgBase 1 (fun _ => 0)).blocks.get ⟨i, by omega⟩).duration
        = ((generate cfgBase 1 (fun _ => 0)).blocks.get ⟨i + 1, h⟩).start) ∧
      ∃ b rest, (generate cfgBase 1 (fun _ => 0)).blocks = b :: rest ∧
        b.start = 240 + startTimeOffsetVal cfgBase :=
  claim_blocks_contiguous cfgBase 1 (fun _ => 0) cfgBase_valid one_validPow

/-- C3: when the continuous cycle loop terminates, the recomputed actual
total sleep is at least the modifier-adjusted total-sleep target and
exceeds it by less than a full 90-minute cycle. -/
theorem claim_tst_convergence (cfg : Config) (pow05 : ℚ) (rand : ℕ → ℚ)
    (hV : ValidConfig cfg) (hP : ValidPow pow05) :
    (finalMods cfg pow05).tst ≤ (generate cfg pow05 rand).stats.tst ∧
      (generate cfg pow05 rand).stats.tst < (finalMods cfg pow05).tst + 90 := by
  have hI := Inv_final cfg pow05 rand hV hP
  have hterm := generate_term cfg pow05 rand hV hP
  have hok := finalMods_ok cfg pow05 hV hP
  have htst := finalMods_tst_mem cfg pow05 hV hP
  have hN1 := initN1Dur_mem cfg pow05 hV.2.2.2.1 hV.2.2.2.2.1 hP.1 hP.2
  have hacc : (generate cfg pow05 rand).stats.tst
      = (finalState cfg pow05 rand).accumulatedSleep := by
    rw [generate_stats_tst]
    exact hI.sleep_eq.symm
  have hFS : finalState cfg pow05 rand
      = loopRun (mkCtx cfg pow05) 11 (initState cfg pow05 rand) := rfl
  constructor
  · rw [hacc]
    exact hterm
  · rw [hacc]
    have hup := run_upper (mkCtx cfg pow05) hok.1 hok.2.1 (initState cfg pow05 rand) rfl
      11 (le_refl _)
    rw [← hFS] at hup
    have hinit : (initState cfg pow05 rand).accumulatedSleep = initN1Dur cfg pow05 := rfl
    have hmk : (mkCtx cfg pow05).tst = (finalMods cfg pow05).tst := rfl
    rcases hup with h | h
    · rw [hinit] at h
      linarith [htst.1, hN1.2]
    · rw [hmk] at h
      linarith

theorem claim_tst_convergence_witness :
    (finalMods cfgBase 1).tst ≤ (generate cfgBase 1 (fun _ => 0)).stats.tst ∧
      (generate cfgBase 1 (fun _ => 0)).stats.tst < (finalMods cfgBase 1).tst + 90 :=
  claim_tst_convergence cfgBase 1 (fun _ => 0) cfgBase_valid one_validPow

/-- C7: for every valid Configuration the generation yields
`timeInBed > 0` and a sleep efficiency `100 * actualTotalSleep / timeInBed`
in the half-open interval `(0, 100]`. -/
theorem claim_efficiency_range (cfg : Config) (pow05 : ℚ) (rand : ℕ → ℚ)
    (hV : ValidConfig cfg) (hP : ValidPow pow05) :
    0 < (generate cfg pow05 rand).stats.tib ∧
      0 < (generate cfg pow05 rand).stats.sleepEfficiency ∧
      (generate cfg pow05 rand).stats.sleepEfficiency ≤ 100 := by
  have hI := Inv_final cfg pow05 rand hV hP
  have hTST : 0 < sumSleep (finalState cfg pow05 rand).blocks := by
    rw [← hI.sleep_eq]
    exact hI.accum_pos
  have hwake := sumWake_nonneg _ hI.dur_nonneg
  have htib : sumSleep (finalState cfg pow05 rand).blocks
      ≤ (finalState cfg pow05 rand).currentTime := by
    rw [hI.time_eq, sumDur_eq_sleep_add_wake]
    linarith
  have htibpos : 0 < (finalState cfg pow05 rand).currentTime := lt_of_lt_of_le hTST htib
  refine ⟨?_, ?_, ?_⟩
  · rw [generate_stats_tib]
    exact htibpos
  · rw [generate_stats_se]
    have := div_pos hTST htibpos
    linarith
  · rw [generate_stats_se]
    have hq : sumSleep (finalState cfg pow05 rand).blocks
        / (finalState cfg pow05 rand).currentTime ≤ 1 := by
      rw [div_le_one htibpos]
      exact htib
    linarith

theorem claim_efficiency_range_witness :
    0 < (generate cfgBase 1 (fun _ => 0)).stats.tib ∧
      0 < (generate cfgBase 1 (fun _ => 0)).stats.sleepEfficiency ∧
      (generate cfgBase 1 (fun _ => 0)).stats.sleepEfficiency ≤ 100 :=
  claim_efficiency_range cfgBase 1 (fun _ => 0) cfgBase_valid one_validPow

theorem cycleBlocks_has_rem (ctx : Ctx) (s : LoopState)
    (hccs : 0 < ccsVal ctx s.accumulatedSleep) (hrem : 0 < ctx.remP) :
    ∃ b ∈ cycleBlocks ctx s, b.stage = Stage.REM ∧ 0 < b.duration := by
  simp only [cycleBlocks]
  refine ⟨_, List.mem_append_left _ (List.mem_append_left _ (List.mem_append_right _
    (List.mem_singleton_self _))), rfl, ?_⟩
  exact mul_pos hccs (localREMof_pos ctx s.cycleIndex hrem)

/-- C8: for every valid Configuration and any random draw, the
`while (accumulatedSleep < tst)` loop terminates within `FUEL = 11`
iterations (extra fuel leaves the state unchanged), and every executed
iteration strictly increases `accumulatedSleep`, emitting a REM block of
strictly positive duration. -/
theorem claim_loop_terminates (cfg : Config) (pow05 : ℚ) (rand : ℕ → ℚ)
    (hV : ValidConfig cfg) (hP : ValidPow pow05) :
    (finalMods cfg pow05).tst ≤ (finalState cfg pow05 rand).accumulatedSleep ∧
      (∀ n : ℕ, loopRun (mkCtx cfg pow05) (FUEL + n) (initState cfg pow05 rand)
        = finalState cfg pow05 rand) ∧
      (∀ j : ℕ,
        (loopRun (mkCtx cfg pow05) j (initState cfg pow05 rand)).accumulatedSleep
            < (finalMods cfg pow05).tst →
          (loopRun (mkCtx cfg pow05) j (initState cfg pow05 rand)).accumulatedSleep
              < (loopRun (mkCtx cfg pow05) (j + 1) (initState cfg pow05 rand)).accumulatedSleep
            ∧ ∃ b ∈ (loopRun (mkCtx cfg pow05) (j + 1) (initState cfg pow05 rand)).blocks,
                b.stage = Stage.REM ∧ 0 < b.duration) := by
  have hterm := generate_term cfg pow05 rand hV hP
  have hok := finalMods_ok cfg pow05 hV hP
  have hmk : (mkCtx cfg pow05).tst = (finalMods cfg pow05).tst := rfl
  refine ⟨hterm, ?_, ?_⟩
  · intro n
    rw [loopRun_add]
    exact loopRun_dead _ n _ (not_lt.mpr hterm)
  · intro j hg
    rw [← hmk] at hg
    have hstep : loopRun (mkCtx cfg pow05) (j + 1) (initState cfg pow05 rand)
        = cycleStep (mkCtx cfg pow05) (loopRun (mkCtx cfg pow05) j (initState cfg pow05 rand)) := by
      rw [loopRun_succ_out, if_pos hg]
    constructor
    · rw [hstep]
      have := sleepGain_pos (mkCtx cfg pow05)
        (loopRun (mkCtx cfg pow05) j (initState cfg pow05 rand)).cycleIndex
        (loopRun (mkCtx cfg pow05) j (initState cfg pow05 rand)).accumulatedSleep hg
      show _ < _ + _
      linarith
    · rw [hstep]
      obtain ⟨b, hb, hstage, hdur⟩ := cycleBlocks_has_rem (mkCtx cfg pow05)
        (loopRun (mkCtx cfg pow05) j (initState cfg pow05 rand))
        (ccsVal_pos _ _ hg) hok.2.2.1
      exact ⟨b, List.mem_append_right _ hb, hstage, hdur⟩

theorem claim_loop_terminates_witness :
    (finalMods cfgBase 1).tst ≤ (finalState cfgBase 1 (fun _ => 0)).accumulatedSleep ∧
      (∀ n : ℕ, loopRun (mkCtx cfgBase 1) (FUEL + n) (initState cfgBase 1 (fun _ => 0))
        = finalState cfgBase 1 (fun _ => 0)) ∧
      (∀ j : ℕ,
        (loopRun (mkCtx cfgBase 1) j (initState cfgBase 1 (fun _ => 0))).accumulatedSleep
            < (finalMods cfgBase 1).tst →
          (loopRun (mkCtx cfgBase 1) j (initState cfgBase 1 (fun _ => 0))).accumulatedSleep
              < (loopRun (mkCtx cfgBase 1) (j + 1)
                  (initState cfgBase 1 (fun _ => 0))).accumulatedSleep
            ∧ ∃ b ∈ (loopRun (mkCtx cfgBase 1) (j + 1)
                  (initState cfgBase 1 (fun _ => 0))).blocks,
                b.stage = Stage.REM ∧ 0 < b.duration) :=
  claim_loop_terminates cfgBase 1 (fun _ => 0) cfgBase_valid one_validPow

/-- C10: if the modifier-adjusted total-sleep target is at most the
initial N1 duration, the cycle loop body executes zero times and
`generate` returns exactly the latency WAKE block and the initial N1
block, with no WASO chunks. -/
theorem claim_tiny_target (cfg : Config) (pow05 : ℚ) (rand : ℕ → ℚ)
    (h : (finalMods cfg pow05).tst ≤ initN1Dur cfg pow05) :
    (generate cfg pow05 rand).blocks =
      [{ stage := Stage.WAKE, duration := latencyVal cfg pow05,
         start := 0 + 240 + startTimeOffsetVal cfg },
       { stage := Stage.N1, duration := initN1Dur cfg pow05,
         start := latencyVal cfg pow05 + 240 + startTimeOffsetVal cfg }] := by
  have hdead : finalState cfg pow05 rand = initState cfg pow05 rand := by
    refine loopRun_dead _ _ _ ?_
    show ¬ (initState cfg pow05 rand).accumulatedSleep < (mkCtx cfg pow05).tst
    have h1 : (initState cfg pow05 rand).accumulatedSleep = initN1Dur cfg pow05 := rfl
    have h2 : (mkCtx cfg pow05).tst = (finalMods cfg pow05).tst := rfl
    rw [h1, h2]
    exact not_lt.mpr h
  rw [generate_blocks_eq, hdead]
  rfl

/-- C9 (frame effect): the blocks, params and stats of `generate` depend
only on the WASO-chunk draws; the draws consumed by the micro-arousal
overlay (indices at and beyond `numWakeChunks`) never reach them. -/
theorem claim_overlay_frame (cfg : Config) (pow05 : ℚ) (rand1 rand2 : ℕ → ℚ)
    (h : ∀ k, k < numWakeChunks (finalMods cfg pow05).wasoMins → rand1 k = rand2 k) :
    (generate cfg pow05 rand1).blocks = (generate cfg pow05 rand2).blocks ∧
      (generate cfg pow05 rand1).params = (generate cfg pow05 rand2).params ∧
      (generate cfg pow05 rand1).stats = (generate cfg pow05 rand2).stats := by
  have hidx : wakeIdxList (finalMods cfg pow05).wasoMins (finalMods cfg pow05).tst rand1
      = wakeIdxList (finalMods cfg pow05).wasoMins (finalMods cfg pow05).tst rand2 := by
    rw [wakeIdxList, wakeIdxList]
    congr 1
    refine List.map_congr_left ?_
    intro k hk
    rw [h k (List.mem_range.mp hk)]
  have hinit : initState cfg pow05 rand1 = initState cfg pow05 rand2 := by
    show ({ blocks := _, currentTime := _, accumulatedSleep := _, cycleIndex := 0,
            pending := wakeIdxList (finalMods cfg pow05).wasoMins (finalMods cfg pow05).tst
              rand1 } : LoopState) = _
    rw [hidx]
    rfl
  have hfs : finalState cfg pow05 rand1 = finalState cfg pow05 rand2 := by
    rw [finalState, finalState, hinit]
  refine ⟨?_, ?_, ?_⟩
  · rw [generate_blocks_eq, generate_blocks_eq, hfs]
  · show ({ chronotype := cfg.chronotype, startTimeOffset := startTimeOffsetVal cfg,
            tst := sumSleep (finalState cfg pow05 rand1).blocks,
            tib := (finalState cfg pow05 rand1).currentTime } : Params) = _
    rw [hfs]
    rfl
  · show ({ n3P := (finalMods cfg pow05).n3P, remP := (finalMods cfg pow05).remP,
            n1P := (finalMods cfg pow05).n1P, n2P := finalN2P cfg pow05,
            wasoMins := (finalMods cfg pow05).wasoMins,
            tst := sumSleep (finalState cfg pow05 rand1).blocks,
            tib := (finalState cfg pow05 rand1).currentTime,
            sleepEfficiency := sumSleep (finalState cfg pow05 rand1).blocks
              / (finalState cfg pow05 rand1).currentTime * 100,
            latency := latencyVal cfg pow05 } : Stats) = _
    rw [hfs]
    rfl

theorem claim_overlay_frame_witness :
    (generate cfgBase 1 (fun _ => 0)).blocks
        = (generate cfgBase 1 (fun k => if k < numWakeChunks (finalMods cfgBase 1).wasoMins
            then 0 else 1/2)).blocks ∧
      (generate cfgBase 1 (fun _ => 0)).params
        = (generate cfgBase 1 (fun k => if k < numWakeChunks (finalMods cfgBase 1).wasoMins
            then 0 else 1/2)).params ∧
      (generate cfgBase 1 (fun _ => 0)).stats
        = (generate cfgBase 1 (fun k => if k < numWakeChunks (finalMods cfgBase 1).wasoMins
            then 0 else 1/2)).stats :=
  claim_overlay_frame cfgBase 1 (fun _ => 0)
    (fun k => if k < numWakeChunks (finalMods cfgBase 1).wasoMins then 0 else 1/2)
    (fun k hk => by
      show (0 : ℚ) = if k < numWakeChunks (finalMods cfgBase 1).wasoMins then 0 else 1/2
      rw [if_pos hk])

/-- The WASO wake-block accounting behind C5: the WAKE durations of the
result are the latency plus one chunk duration for every chunk consumed
by the loop (scheduled chunks whose cycle index is never reached stay in
`pending` and are dropped). -/
theorem wake_accounting (cfg : Config) (pow05 : ℚ) (rand : ℕ → ℚ)
    (hV : ValidConfig cfg) (hP : ValidPow pow05) :
    sumWake (generate cfg pow05 rand).blocks
      = latencyVal cfg pow05 + wakeChunkDuration (finalMods cfg pow05).wasoMins
        * ((numWakeChunks (finalMods cfg pow05).wasoMins : ℚ)
          - ((finalState cfg pow05 rand).pending.length : ℚ)) := by
  have hI := Inv_final cfg pow05 rand hV hP
  rw [generate_blocks_eq, sumWake_map_shift]
  exact hI.wake_eq

/-- C5 (amended): every WASO chunk has duration
`wasoMins / max(1, floor(wasoMins / 15))`; the loop inserts exactly the
chunks whose scheduled cycle index is reached before the loop terminates,
so the WAKE durations sum to the latency plus `wasoMins` exactly when no
scheduled chunk is left pending, and fall short by one chunk duration per
dropped chunk otherwise. -/
theorem claim_waso_chunks (cfg : Config) (pow05 : ℚ) (rand : ℕ → ℚ)
    (hV : ValidConfig cfg) (hP : ValidPow pow05) :
    sumWake (generate cfg pow05 rand).blocks
        = latencyVal cfg pow05 + wakeChunkDuration (finalMods cfg pow05).wasoMins
          * ((numWakeChunks (finalMods cfg pow05).wasoMins : ℚ)
            - ((finalState cfg pow05 rand).pending.length : ℚ)) ∧
      ((finalState cfg pow05 rand).pending = [] →
        sumWake (generate cfg pow05 rand).blocks
          = latencyVal cfg pow05 + (finalMods cfg pow05).wasoMins) := by
  refine ⟨wake_accounting cfg pow05 rand hV hP, ?_⟩
  intro hnil
  rw [wake_accounting cfg pow05 rand hV hP, hnil]
  simp only [List.length_nil, Nat.cast_zero, sub_zero]
  rw [chunkDur_mul_numChunks]

theorem claim_waso_chunks_witness :
    sumWake (generate cfgBase 1 (fun _ => 0)).blocks
        = latencyVal cfgBase 1 + wakeChunkDuration (finalMods cfgBase 1).wasoMins
          * ((numWakeChunks (finalMods cfgBase 1).wasoMins : ℚ)
            - ((finalState cfgBase 1 (fun _ => 0)).pending.length : ℚ)) ∧
      ((finalState cfgBase 1 (fun _ => 0)).pending = [] →
        sumWake (generate cfgBase 1 (fun _ => 0)).blocks
          = latencyVal cfgBase 1 + (finalMods cfgBase 1).wasoMins) :=
  claim_waso_chunks cfgBase 1 (fun _ => 0) cfgBase_valid one_validPow

/-! ### SDB-severity monotonicity (C6) -/

/-- The post-rescale N3 fraction `min(A, 0.95 A / (A + B))` is strictly
decreasing when the raw N3 weight `A` strictly decreases and the other
raw weight `B` does not decrease. -/
theorem rescale_min_mono (A1 A2 B1 B2 : ℚ) (hA1 : 0 < A1) (hA2 : 0 < A2) (hA21 : A2 < A1)
    (hB1 : 0 < B1) (hB12 : B1 ≤ B2) :
    (if (0.95 : ℚ) < A2 + B2 then A2 * (0.95 / (A2 + B2)) else A2)
      < (if (0.95 : ℚ) < A1 + B1 then A1 * (0.95 / (A1 + B1)) else A1) := by
  have hprod : A2 * (A1 + B1) < A1 * (A2 + B2) := by
    nlinarith [mul_lt_mul_of_pos_right hA21 hB1,
      mul_le_mul_of_nonneg_left hB12 hA1.le]
  split_ifs with hT2 hT1 hT1
  · have hT2pos : (0 : ℚ) < A2 + B2 := by linarith
    have hT1pos : (0 : ℚ) < A1 + B1 := by linarith
    rw [show A2 * (0.95 / (A2 + B2)) = 0.95 * A2 / (A2 + B2) from by ring,
      show A1 * (0.95 / (A1 + B1)) = 0.95 * A1 / (A1 + B1) from by ring,
      div_lt_div_iff hT2pos hT1pos]
    nlinarith [hprod]
  · have hT2pos : (0 : ℚ) < A2 + B2 := by linarith
    rw [show A2 * (0.95 / (A2 + B2)) = 0.95 * A2 / (A2 + B2) from by ring,
      div_lt_iff hT2pos]
    nlinarith [mul_pos hA1 (show (0 : ℚ) < A2 + B2 - 0.95 from by linarith)]
  · have hT1pos : (0 : ℚ) < A1 + B1 := by linarith
    rw [show A1 * (0.95 / (A1 + B1)) = 0.95 * A1 / (A1 + B1) from by ring,
      lt_div_iff hT1pos]
    have hT2le : A2 + B2 ≤ 0.95 := not_lt.mp hT2
    nlinarith [hprod, mul_le_mul_of_nonneg_left hT2le hA1.le]
  · exact hA21

theorem sdb_mono (P : Mods) (hok : ModsOK P) (n : ℚ) (s1 s2 : ℚ)
    (h0 : 0 ≤ s1) (h12 : s1 < s2) (h10 : s2 ≤ 10) :
    (rescaleStage (nocturiaStage n (sdbStage s2 P))).n3P
        < (rescaleStage (nocturiaStage n (sdbStage s1 P))).n3P ∧
      (rescaleStage (nocturiaStage n (sdbStage s1 P))).wasoMins
        < (rescaleStage (nocturiaStage n (sdbStage s2 P))).wasoMins := by
  obtain ⟨h3, h3u, hr, hru, h1, hw⟩ := hok
  have hA : ∀ s, 0 ≤ s → (sdbStage s P).n3P = P.n3P * (1 - s / 10 * 0.75) := by
    intro s hs
    rw [sdbStage_n3P]
    split_ifs with hpos
    · rfl
    · have hz : s = 0 := le_antisymm (not_lt.mp hpos) hs
      rw [hz]
      ring
  have hR : ∀ s, 0 ≤ s → (sdbStage s P).remP = P.remP * (1 - s / 10 * 0.3) := by
    intro s hs
    rw [sdbStage_remP]
    split_ifs with hpos
    · rfl
    · have hz : s = 0 := le_antisymm (not_lt.mp hpos) hs
      rw [hz]
      ring
  have hN : ∀ s, 0 ≤ s → (sdbStage s P).n1P = P.n1P + s / 10 * 0.15 := by
    intro s hs
    rw [sdbStage_n1P]
    split_ifs with hpos
    · rfl
    · have hz : s = 0 := le_antisymm (not_lt.mp hpos) hs
      rw [hz]
      ring
  have hW : ∀ s, 0 ≤ s → (sdbStage s P).wasoMins = P.wasoMins + s / 10 * 80 := by
    intro s hs
    rw [sdbStage_waso]
    split_ifs with hpos
    · rfl
    · have hz : s = 0 := le_antisymm (not_lt.mp hpos) hs
      rw [hz]
      ring
  constructor
  · rw [rescaleStage_n3P, rescaleStage_n3P, nocturiaStage_n3P, nocturiaStage_n3P,
      nocturiaStage_remP, nocturiaStage_remP, nocturiaStage_n1P, nocturiaStage_n1P,
      hA s1 h0, hA s2 (by linarith), hR s1 h0, hR s2 (by linarith),
      hN s1 h0, hN s2 (by linarith)]
    have e2 : P.n3P * (1 - s2 / 10 * 0.75) + P.remP * (1 - s2 / 10 * 0.3)
        + (P.n1P + s2 / 10 * 0.15)
        = P.n3P * (1 - s2 / 10 * 0.75)
          + (P.remP * (1 - s2 / 10 * 0.3) + (P.n1P + s2 / 10 * 0.15)) := by ring
    have e1 : P.n3P * (1 - s1 / 10 * 0.75) + P.remP * (1 - s1 / 10 * 0.3)
        + (P.n1P + s1 / 10 * 0.15)
        = P.n3P * (1 - s1 / 10 * 0.75)
          + (P.remP * (1 - s1 / 10 * 0.3) + (P.n1P + s1 / 10 * 0.15)) := by ring
    rw [e2, e1]
    refine rescale_min_mono _ _ _ _ ?_ ?_ ?_ ?_ ?_ <;> nlinarith
  · rw [rescaleStage_waso, rescaleStage_waso, nocturiaStage_waso, nocturiaStage_waso,
      hW s1 h0, hW s2 (by linarith)]
    split_ifs <;> nlinarith

/-- C6: holding every other Configuration field fixed, a strictly larger
`sdbSeverity` in `[0, 10]` yields a strictly smaller `stats.n3P` and a
strictly larger `stats.wasoMins` (the effect survives the 0.95
fraction-ceiling rescale). -/
theorem claim_sdb_monotone (cfg : Config) (pow05 : ℚ) (rand : ℕ → ℚ) (s1 s2 : ℚ)
    (hV : ValidConfig cfg) (hP : ValidPow pow05) (h0 : 0 ≤ s1) (h12 : s1 < s2)
    (h10 : s2 ≤ 10) :
    (generate { cfg with sdbSeverity := s2 } pow05 rand).stats.n3P
        < (generate { cfg with sdbSeverity := s1 } pow05 rand).stats.n3P ∧
      (generate { cfg with sdbSeverity := s1 } pow05 rand).stats.wasoMins
        < (generate { cfg with sdbSeverity := s2 } pow05 rand).stats.wasoMins := by
  have hok := preSdbMods_ok cfg pow05 hV hP
  have hfm : ∀ s : ℚ, finalMods { cfg with sdbSeverity := s } pow05
      = rescaleStage (nocturiaStage cfg.nocturia (sdbStage s (preSdbMods cfg pow05))) :=
    fun s => rfl
  rw [generate_stats_n3P, generate_stats_n3P, generate_stats_waso, generate_stats_waso,
    hfm s1, hfm s2]
  exact sdb_mono (preSdbMods cfg pow05) hok cfg.nocturia s1 s2 h0 h12 h10

theorem claim_sdb_monotone_witness :
    (generate { cfgBase with sdbSeverity := 10 } 1 (fun _ => 0)).stats.n3P
        < (generate { cfgBase with sdbSeverity := 0 } 1 (fun _ => 0)).stats.n3P ∧
      (generate { cfgBase with sdbSeverity := 0 } 1 (fun _ => 0)).stats.wasoMins
        < (generate { cfgBase with sdbSeverity := 10 } 1 (fun _ => 0)).stats.wasoMins :=
  claim_sdb_monotone cfgBase 1 (fun _ => 0) 0 10 cfgBase_valid one_validPow
    (by norm_num) (by norm_num) (by norm_num)

/-! ### A configuration whose adjusted target is consumed by the initial N1 -/

/-- Age 90 with maximal caffeine, SDB, blue light and social jet lag:
the adjusted total-sleep target drops to exactly 0. -/
def cfgTiny : Config :=
  { age := 90, gender := Gender.female, alcohol := 0, caffeine := 10, sdbSeverity := 10,
    nocturia := 0, chronotype := Chronotype.normal, socialJetLag := true, blueLight := true,
    isMenopausal := false }

theorem interpolate_tst_90 : interpolate 90 tstKeyframes = 300 := by
  norm_num [interpolate, tstKeyframes, List.getLastD]

theorem baseMods_tst_90 : (baseMods (90 : ℚ)).tst = 300 := by
  rw [baseMods]
  show (getAgeProfile 90).tst = 300
  rw [getAgeProfile_eq]
  exact interpolate_tst_90

theorem cfgTiny_tst : (finalMods cfgTiny 1).tst = 0 := by
  rw [finalMods, rescaleStage_tst, nocturiaStage_tst, sdbStage_tst, preSdbMods,
    menopauseStage_tst, genderStage_tst, socialJetLagStage_tst, alcoholStage_tst,
    caffeineStage_tst, blueLightStage_tst]
  norm_num [cfgTiny, activeCaffeine, baseMods_tst_90]

theorem claim_tiny_target_witness :
    (generate cfgTiny 1 (fun _ => 0)).blocks =
      [{ stage := Stage.WAKE, duration := latencyVal cfgTiny 1,
         start := 0 + 240 + startTimeOffsetVal cfgTiny },
       { stage := Stage.N1, duration := initN1Dur cfgTiny 1,
         start := latencyVal cfgTiny 1 + 240 + startTimeOffsetVal cfgTiny }] :=
  claim_tiny_target cfgTiny 1 (fun _ => 0)
    (by rw [cfgTiny_tst]; norm_num [initN1Dur, cfgTiny, activeCaffeine])

/-! ### Scalar skeleton of the loop (for concrete evaluation) -/

/-- The loop's effect on (accumulatedSleep, cycleIndex, pending) only:
the block list does not feed back into the control flow. -/
def skel (ctx : Ctx) : ℕ → ℚ × ℕ × List ℤ → ℚ × ℕ × List ℤ
  | 0, t => t
  | n + 1, (a, k, p) =>
      if a < ctx.tst then skel ctx n (a + sleepGain ctx k a, k + 1, (popEq (k : ℤ) p).2)
      else (a, k, p)

theorem skel_spec (ctx : Ctx) : ∀ (n : ℕ) (s : LoopState),
    skel ctx n (s.accumulatedSleep, s.cycleIndex, s.pending)
      = ((loopRun ctx n s).accumulatedSleep, (loopRun ctx n s).cycleIndex,
          (loopRun ctx n s).pending) := by
  intro n
  induction n with
  | zero => intro s; rfl
  | succ n ih =>
    intro s
    rw [skel, loopRun]
    split_ifs with hg
    · exact ih (cycleStep ctx s)
    · rfl

/-! ### A configuration whose loop drops scheduled WASO chunks -/

/-- Age 60 with caffeine 1, SDB 10, blue light and social jet lag: the
loop finishes after two cycles while the twelve WASO chunks are all
scheduled for cycle index 2, which is never reached. -/
def cfgSdb : Config :=
  { age := 60, gender := Gender.female, alcohol := 0, caffeine := 1, sdbSeverity := 10,
    nocturia := 0, chronotype := Chronotype.normal, socialJetLag := true, blueLight := true,
    isMenopausal := false }

/-- The loop context of `cfgSdb` in closed form. -/
def ctxSdb : Ctx :=
  { tst := 195, n3P := 14739/640000, remP := 1449/12500, alcohol := 0, age := 60,
    chunkDur := 125/8 }

theorem cfgSdb_valid : ValidConfig cfgSdb := by
  refine ⟨?_, ?_, ?_, ?_, ?_, ?_, ?_, ?_, ?_⟩ <;> norm_num [cfgSdb]

theorem interp60_tst : interpolate 60 tstKeyframes = 360 := by
  norm_num [interpolate, interpSeg, tstKeyframes, List.getLastD]

theorem interp60_n3 : interpolate 60 n3Keyframes = 3/20 := by
  norm_num [interpolate, interpSeg, n3Keyframes, List.getLastD]

theorem interp60_rem : interpolate 60 remKeyframes = 23/100 := by
  norm_num [interpolate, interpSeg, remKeyframes, List.getLastD]

theorem interp60_waso : interpolate 60 wasoKeyframes = 125/2 := by
  norm_num [interpolate, interpSeg, wasoKeyframes, List.getLastD]

theorem interp60_n1 : interpolate 60 n1Keyframes = 1/15 := by
  norm_num [interpolate, interpSeg, n1Keyframes, List.getLastD]

theorem baseMods_60 : baseMods (60 : ℚ)
    = { tst := 360, n3P := 3/20, remP := 23/100, n1P := 1/15, wasoMins := 125/2 } := by
  rw [baseMods]
  show ({ tst := (getAgeProfile 60).tst, n3P := (getAgeProfile 60).n3P,
          remP := (getAgeProfile 60).remP, n1P := (getAgeProfile 60).n1P,
          wasoMins := (getAgeProfile 60).wasoMins } : Mods) = _
  rw [getAgeProfile_eq]
  norm_num [interp60_tst, interp60_n3, interp60_rem, interp60_waso, interp60_n1, Mods.mk.injEq]

theorem cfgSdb_mods : finalMods cfgSdb 1
    = { tst := 195, n3P := 14739/640000, remP := 1449/12500, n1P := 83/300,
        wasoMins := 375/2 } := by
  have e0 : finalMods cfgSdb 1
      = rescaleStage (nocturiaStage 0 (sdbStage 10 (menopauseStage false
          (genderStage Gender.female 60 (socialJetLagStage true (alcoholStage 0
            (caffeineStage (activeCaffeine 1 1) (blueLightStage true (baseMods 60))))))))) :=
    rfl
  have s1 : blueLightStage true
      ({ tst := 360, n3P := 3/20, remP := 23/100, n1P := 1/15, wasoMins := 125/2 } : Mods)
      = { tst := 330, n3P := 51/400, remP := 207/1000, n1P := 29/300, wasoMins := 125/2 } := by
    rw [blueLightStage, if_pos rfl]
    norm_num [Mods.mk.injEq]
  have s2 : caffeineStage (activeCaffeine 1 1)
      ({ tst := 330, n3P := 51/400, remP := 207/1000, n1P := 29/300, wasoMins := 125/2 } : Mods)
      = { tst := 315, n3P := 867/8000, remP := 207/1000, n1P := 19/150,
          wasoMins := 155/2 } := by
    rw [caffeineStage, if_pos (by norm_num [activeCaffeine])]
    norm_num [activeCaffeine, Mods.mk.injEq]
  have s3 : alcoholStage 0
      ({ tst := 315, n3P := 867/8000, remP := 207/1000, n1P := 19/150,
         wasoMins := 155/2 } : Mods)
      = { tst := 315, n3P := 867/8000, remP := 207/1000, n1P := 19/150, wasoMins := 155/2 } := by
    rw [alcoholStage, if_neg (by norm_num)]
  have s4 : socialJetLagStage true
      ({ tst := 315, n3P := 867/8000, remP := 207/1000, n1P := 19/150,
         wasoMins := 155/2 } : Mods)
      = { tst := 255, n3P := 14739/160000, remP := 207/1250, n1P := 19/150,
          wasoMins := 215/2 } := by
    rw [socialJetLagStage, if_pos rfl]
    norm_num [Mods.mk.injEq]
  have s5 : genderStage Gender.female 60
      ({ tst := 255, n3P := 14739/160000, remP := 207/1250, n1P := 19/150,
         wasoMins := 215/2 } : Mods)
      = { tst := 255, n3P := 14739/160000, remP := 207/1250, n1P := 19/150,
          wasoMins := 215/2 } := by
    rw [genderStage, if_neg (fun hc => absurd hc.1 (by decide))]
  have s6 : menopauseStage false
      ({ tst := 255, n3P := 14739/160000, remP := 207/1250, n1P := 19/150,
         wasoMins := 215/2 } : Mods)
      = { tst := 255, n3P := 14739/160000, remP := 207/1250, n1P := 19/150,
          wasoMins := 215/2 } := by
    rw [menopauseStage, if_neg (by simp)]
  have s7 : sdbStage 10
      ({ tst := 255, n3P := 14739/160000, remP := 207/1250, n1P := 19/150,
         wasoMins := 215/2 } : Mods)
      = { tst := 195, n3P := 14739/640000, remP := 1449/12500, n1P := 83/300,
          wasoMins := 375/2 } := by
    rw [sdbStage, if_pos (by norm_num)]
    norm_num [Mods.mk.injEq]
  have s8 : nocturiaStage 0
      ({ tst := 195, n3P := 14739/640000, remP := 1449/12500, n1P := 83/300,
         wasoMins := 375/2 } : Mods)
      = { tst := 195, n3P := 14739/640000, remP := 1449/12500, n1P := 83/300,
          wasoMins := 375/2 } := by
    rw [nocturiaStage, if_neg (by norm_num)]
  have s9 : rescaleStage
      ({ tst := 195, n3P := 14739/640000, remP := 1449/12500, n1P := 83/300,
         wasoMins := 375/2 } : Mods)
      = { tst := 195, n3P := 14739/640000, remP := 1449/12500, n1P := 83/300,
          wasoMins := 375/2 } := by
    rw [rescaleStage, if_neg (by norm_num)]
  rw [e0, baseMods_60, s1, s2, s3, s4, s5, s6, s7, s8, s9]

theorem toNat_twelve : ((12 : ℤ)).toNat = 12 := rfl

theorem cfgSdb_ctx : mkCtx cfgSdb 1 = ctxSdb := by
  rw [mkCtx, cfgSdb_mods, ctxSdb]
  norm_num [wakeChunkDuration, numWakeChunks, cfgSdb, Ctx.mk.injEq, toNat_twelve]

theorem cfgSdb_latency : latencyVal cfgSdb 1 = 85 := by
  norm_num [latencyVal, cfgSdb, activeCaffeine]

theorem cfgSdb_initN1 : initN1Dur cfgSdb 1 = 15 := by
  norm_num [initN1Dur, cfgSdb, activeCaffeine]

theorem cfgSdb_idxlist : wakeIdxList (375/2) 195 (fun _ => 9/10) = List.replicate 12 2 := by
  rw [wakeIdxList]
  have hN : numWakeChunks (375/2) = 12 := by norm_num [numWakeChunks, toNat_twelve]
  rw [hN]
  have hmap : (List.range 12).map
      (fun k => ⌊(fun _ : ℕ => (9/10 : ℚ)) k * ((estCycles 195 : ℤ) : ℚ)⌋)
      = List.replicate 12 2 := by
    rw [List.eq_replicate_iff]
    constructor
    · simp
    · intro b hb
      obtain ⟨k, hk, rfl⟩ := List.mem_map.mp hb
      have hec : estCycles 195 = 3 := by norm_num [estCycles, Int.ceil_eq_iff]
      rw [hec]
      norm_num
  rw [hmap]
  rfl

theorem cfgSdb_gain0 : sleepGain ctxSdb 0 15 = 94 := by
  norm_num [sleepGain, ccsVal, localN2of, localN3of, localREMof, localsNormed, localN3raw,
    localREMraw, transN1val, ctxSdb]

theorem cfgSdb_gain1 : sleepGain ctxSdb 1 109 = 90 := by
  norm_num [sleepGain, ccsVal, localN2of, localN3of, localREMof, localsNormed, localN3raw,
    localREMraw, transN1val, ctxSdb]

theorem cfgSdb_skel : skel ctxSdb 11 (15, 0, List.replicate 12 2)
    = (199, 2, List.replicate 12 2) := by
  have hp0 : (popEq ((0 : ℕ) : ℤ) (List.replicate 12 2)).2 = List.replicate 12 2 := rfl
  have hp1 : (popEq ((1 : ℕ) : ℤ) (List.replicate 12 2)).2 = List.replicate 12 2 := rfl
  have h1 : skel ctxSdb 11 (15, 0, List.replicate 12 2)
      = skel ctxSdb 10 (15 + sleepGain ctxSdb 0 15, 1, List.replicate 12 2) := by
    rw [show (11 : ℕ) = 10 + 1 from rfl, skel, if_pos (by rw [ctxSdb]; norm_num), hp0]
  have h2 : skel ctxSdb 10 (109, 1, List.replicate 12 2)
      = skel ctxSdb 9 (109 + sleepGain ctxSdb 1 109, 2, List.replicate 12 2) := by
    rw [show (10 : ℕ) = 9 + 1 from rfl, skel, if_pos (by rw [ctxSdb]; norm_num), hp1]
  have h3 : skel ctxSdb 9 (199, 2, List.replicate 12 2) = (199, 2, List.replicate 12 2) := by
    rw [show (9 : ℕ) = 8 + 1 from rfl, skel, if_neg (by rw [ctxSdb]; norm_num)]
  rw [h1, cfgSdb_gain0, show (15 : ℚ) + 94 = 109 from by norm_num, h2, cfgSdb_gain1,
    show (109 : ℚ) + 90 = 199 from by norm_num, h3]

theorem cfgSdb_pending_final :
    (finalState cfgSdb 1 (fun _ => 9/10)).pending = List.replicate 12 2 := by
  have hspec := skel_spec (mkCtx cfgSdb 1) FUEL (initState cfgSdb 1 (fun _ => 9/10))
  have hacc : (initState cfgSdb 1 (fun _ => 9/10)).accumulatedSleep = 15 := cfgSdb_initN1
  have hk : (initState cfgSdb 1 (fun _ => 9/10)).cycleIndex = 0 := rfl
  have hp : (initState cfgSdb 1 (fun _ => 9/10)).pending = List.replicate 12 2 := by
    show wakeIdxList (finalMods cfgSdb 1).wasoMins (finalMods cfgSdb 1).tst (fun _ => 9/10)
      = List.replicate 12 2
    rw [cfgSdb_mods]
    exact cfgSdb_idxlist
  rw [hacc, hk, hp] at hspec
  have hified : ((finalState cfgSdb 1 (fun _ => 9/10)).accumulatedSleep,
      (finalState cfgSdb 1 (fun _ => 9/10)).cycleIndex,
      (finalState cfgSdb 1 (fun _ => 9/10)).pending) = (199, 2, List.replicate 12 2) := by
    rw [show finalState cfgSdb 1 (fun _ => 9/10)
        = loopRun (mkCtx cfgSdb 1) FUEL (initState cfgSdb 1 (fun _ => 9/10)) from rfl,
      ← hspec, cfgSdb_ctx]
    exact cfgSdb_skel
  exact congrArg (fun t : ℚ × ℕ × List ℤ => t.2.2) hified

/-- C5 counterexample: at `cfgSdb` with every draw equal to 0.9, all
twelve WASO chunks are scheduled for cycle index 2; the loop stops after
two cycles (indices 0 and 1), so none is inserted and the WAKE durations
beyond the latency block sum to 0, not to `wasoMins = 187.5`. -/
theorem claim_waso_chunks_counterexample :
    sumWake (generate cfgSdb 1 (fun _ => 9/10)).blocks
      ≠ (generate cfgSdb 1 (fun _ => 9/10)).stats.latency
        + (generate cfgSdb 1 (fun _ => 9/10)).stats.wasoMins := by
  have hacct := wake_accounting cfgSdb 1 (fun _ => 9/10) cfgSdb_valid one_validPow
  rw [hacct, generate_stats_latency, generate_stats_waso, cfgSdb_pending_final, cfgSdb_mods,
    cfgSdb_latency]
  norm_num [wakeChunkDuration, numWakeChunks, toNat_twelve, List.length_replicate]

end SleepSim
